import Mathlib

/-
  Shallow embedding of the class-scoped role and permission resolution engine
  of the InformaticsClassroom repository, together with proofs about the
  behaviour its specification claims.

  The engine operates on dynamically typed (JSON-like) user documents, so the
  embedding works over a Python-like value type `Val`.  Fallible operations
  (attribute errors, type errors, key errors, explicit ValueError raises) are
  modelled with `Except String`.  Python `==` on the values that actually occur
  in these documents (strings, numbers, None, nested lists/dicts built from
  JSON) is modelled by structural equality of `Val`.
-/

namespace IC

/-- Python-like dynamic value.  `null` is Python `None`; `dict` is an
insertion-ordered association list (Python dicts have unique keys; all dicts
built by the embedded code do as well). -/
inductive Val where
  | null : Val
  | bool : Bool → Val
  | int : Int → Val
  | str : String → Val
  | list : List Val → Val
  | dict : List (Val × Val) → Val
deriving Repr

mutual

/-- Structural equality test on dynamic values (Python `==` on JSON-shaped
data). -/
def beqVal : Val → Val → Bool
  | .null, .null => true
  | .bool a, .bool b => a == b
  | .int a, .int b => a == b
  | .str a, .str b => a == b
  | .list xs, .list ys => beqValL xs ys
  | .dict xs, .dict ys => beqValD xs ys
  | _, _ => false

/-- Pointwise equality of value lists. -/
def beqValL : List Val → List Val → Bool
  | [], [] => true
  | x :: xs, y :: ys => beqVal x y && beqValL xs ys
  | _, _ => false

/-- Pointwise equality of key-value lists. -/
def beqValD : List (Val × Val) → List (Val × Val) → Bool
  | [], [] => true
  | (k1, v1) :: xs, (k2, v2) :: ys => beqVal k1 k2 && beqVal v1 v2 && beqValD xs ys
  | _, _ => false

end

instance : DecidableEq Val :=
  fun a b => decidable_of_iff (beqVal a b = true) (by
    have main : ∀ n : Nat,
        (∀ a b : Val, sizeOf a ≤ n → (beqVal a b = true ↔ a = b)) ∧
        (∀ xs ys : List Val, sizeOf xs ≤ n → (beqValL xs ys = true ↔ xs = ys)) ∧
        (∀ xs ys : List (Val × Val), sizeOf xs ≤ n → (beqValD xs ys = true ↔ xs = ys)) := by
      intro n
      induction n with
      | zero =>
        refine ⟨fun a b h => ?_, fun xs ys h => ?_, fun xs ys h => ?_⟩
        · exfalso; cases a <;> simp_arith at h
        · cases xs with
          | nil => cases ys with
            | nil => simp [beqValL]
            | cons y ys => simp [beqValL]
          | cons x xs => exfalso; simp_arith at h
        · cases xs with
          | nil => cases ys with
            | nil => simp [beqValD]
            | cons y ys => simp [beqValD]
          | cons x xs => exfalso; simp_arith at h
      | succ n ih =>
        obtain ⟨ihv, ihl, ihd⟩ := ih
        refine ⟨fun a b h => ?_, fun xs ys h => ?_, fun xs ys h => ?_⟩
        · cases a <;> cases b <;> simp [beqVal]
          case list.list xs ys =>
            have hx : sizeOf xs ≤ n := by simp_arith at h; omega
            exact ihl xs ys hx
          case dict.dict xs ys =>
            have hx : sizeOf xs ≤ n := by simp_arith at h; omega
            exact ihd xs ys hx
        · cases xs with
          | nil => cases ys with
            | nil => simp [beqValL]
            | cons y ys => simp [beqValL]
          | cons x xs =>
            cases ys with
            | nil => simp [beqValL]
            | cons y ys =>
              have hx : sizeOf x ≤ n := by simp_arith at h; omega
              have hxs : sizeOf xs ≤ n := by simp_arith at h; omega
              simp [beqValL, ihv x y hx, ihl xs ys hxs]
        · cases xs with
          | nil => cases ys with
            | nil => simp [beqValD]
            | cons y ys => simp [beqValD]
          | cons x xs =>
            cases ys with
            | nil => simp [beqValD]
            | cons y ys =>
              obtain ⟨k1, v1⟩ := x
              obtain ⟨k2, v2⟩ := y
              have hk : sizeOf k1 ≤ n := by simp_arith at h; omega
              have hv : sizeOf v1 ≤ n := by simp_arith at h; omega
              have hxs : sizeOf xs ≤ n := by simp_arith at h; omega
              simp [beqValD, ihv k1 k2 hk, ihv v1 v2 hv, ihd xs ys hxs, and_assoc]
    exact (main (sizeOf a)).1 a b le_rfl)

/-- Python truthiness. -/
def truthy : Val → Bool
  | .null => false
  | .bool b => b
  | .int n => n != 0
  | .str s => s != ""
  | .list xs => !xs.isEmpty
  | .dict kvs => !kvs.isEmpty

/-- Python hashability: lists and dicts are unhashable (using one as a dict
key or set element raises TypeError). -/
def hashable : Val → Bool
  | .list _ => false
  | .dict _ => false
  | _ => true

/-- First-match lookup in an association list, with default: `d.get(k, dflt)`. -/
def dictGetD (kvs : List (Val × Val)) (k : Val) (dflt : Val) : Val :=
  match kvs.find? (fun kv => kv.1 = k) with
  | some kv => kv.2
  | Option.none => dflt

/-- `d.get(k, dflt)` for the string keys of user documents. -/
def getD (kvs : List (Val × Val)) (k : String) (dflt : Val) : Val :=
  dictGetD kvs (.str k) dflt

/-- `k in d` for dicts: key membership. -/
def hasKeyV (kvs : List (Val × Val)) (k : Val) : Bool :=
  kvs.any (fun kv => kv.1 = k)

/-- Python dict item assignment `d[k] = v`: replace the value of an existing
key in place, else append the new pair at the end. -/
def dictSet : List (Val × Val) → Val → Val → List (Val × Val)
  | [], k, v => [(k, v)]
  | (k1, v1) :: rest, k, v =>
    if k1 = k then (k, v) :: rest else (k1, v1) :: dictSet rest k v

/-- Python dict item assignment, raising TypeError on an unhashable key. -/
def dictSetE (kvs : List (Val × Val)) (k v : Val) : Except String (List (Val × Val)) :=
  if hashable k then .ok (dictSet kvs k v) else .error "TypeError: unhashable"

/-- ASCII lowercase of one character (the role and capability strings these
modules compare are all ASCII). -/
def lowerChar (c : Char) : Char :=
  if 65 ≤ c.toNat ∧ c.toNat ≤ 90 then Char.ofNat (c.toNat + 32) else c

/-- `s.lower()` on a string. -/
def strLower (s : String) : String := ⟨s.data.map lowerChar⟩

/-- `x.lower()`: only strings have the method. -/
def pyLower : Val → Except String String
  | .str s => .ok (strLower s)
  | _ => .error "AttributeError: lower"

/-- Python iteration (`for x in v`): lists yield elements, dicts yield keys,
strings yield one-character strings, everything else raises TypeError. -/
def pyIterElems : Val → Except String (List Val)
  | .list xs => .ok xs
  | .dict kvs => .ok (kvs.map (fun kv => kv.1))
  | .str s => .ok (s.data.map (fun c => .str (String.mk [c])))
  | _ => .error "TypeError: not iterable"

/-- Substring test on character lists, for Python `needle in string`. -/
def charsContain (n : List Char) : List Char → Bool
  | [] => n.isEmpty
  | c :: t => n.isPrefixOf (c :: t) || charsContain n t

/-- Python membership `needle in container`.  Lists compare elements, dicts
test keys (raising on an unhashable needle), strings test substrings. -/
def pyContains (needle container : Val) : Except String Bool :=
  match container with
  | .list xs => .ok (xs.contains needle)
  | .dict kvs =>
    if hashable needle then .ok (hasKeyV kvs needle)
    else .error "TypeError: unhashable"
  | .str s =>
    match needle with
    | .str n => .ok (charsContain n.data s.data)
    | _ => .error "TypeError: requires string"
  | _ => .error "TypeError: argument not iterable"

/-! ### permissions.py: role catalog, resolver, has_permission -/

/-- ROLE_PERMISSIONS of informatics_classroom/auth/permissions.py, as
`role ↦ (inherits, permissions)`.  The admin entry also carries
`global: True` in the source, which nothing in the embedded code reads. -/
def ROLE_PERMISSIONS_global : String → Option (List String × List String)
  | "admin" => some ([], ["*"])
  | "instructor" => some (["student"],
      ["quiz.view", "quiz.create", "quiz.modify", "quiz.delete",
       "student.view", "student.manage",
       "class.manage_enrollment",
       "role.grant_ta",
       "class.add_instructor"])
  | "ta" => some (["student"],
      ["quiz.view", "quiz.create", "quiz.modify",
       "student.view"])
  | "student" => some ([], ["quiz.view", "quiz.attempt", "own_data.view"])
  | _ => Option.none

/-- Order-preserving de-duplication (the `seen`-set loop in
get_role_permissions_with_inheritance). -/
def dedupSeen : List String → List String → List String
  | _, [] => []
  | seen, p :: ps =>
    if p ∈ seen then dedupSeen seen ps else p :: dedupSeen (p :: seen) ps

/-- get_role_permissions_with_inheritance, with the shared mutable `visited`
set threaded through the recursion.  `fuel` only bounds the recursion depth
for Lean; the catalog chains have depth at most 2, so any fuel ≥ 4 computes
exactly the Python result. -/
def rolePermsAux : Nat → String → List String → List String × List String
  | 0, _, visited => (visited, [])
  | fuel + 1, role, visited =>
    if role ∈ visited then (visited, [])
    else
      let visited := role :: visited
      let cfg := (ROLE_PERMISSIONS_global role).getD ([], [])
      let step := cfg.1.foldl
        (fun (acc : List String × List String) parent =>
          let r := rolePermsAux fuel parent acc.1
          (r.1, acc.2 ++ r.2))
        (visited, cfg.2)
      (step.1, dedupSeen [] step.2)

/-- get_role_permissions_with_inheritance(role). -/
def get_role_permissions_with_inheritance (role : String) : List String :=
  (rolePermsAux 8 role []).2

/-- The roles-field normalization at the top of has_permission:
wrap a bare string, iterate, drop falsy entries, lower-case the rest. -/
def normalizedRoles (rolesRaw : Val) : Except String (List String) :=
  let rolesIter := match rolesRaw with
    | .str s => Val.list [.str s]
    | v => v
  (pyIterElems rolesIter).bind lowerTruthy
where
  /-- `[r.lower() for r in xs if r]`, left to right, first raise wins. -/
  lowerTruthy : List Val → Except String (List String)
    | [] => .ok []
    | r :: rs =>
      if truthy r then
        (pyLower r).bind fun s => (lowerTruthy rs).map (fun rest => s :: rest)
      else lowerTruthy rs

/-- Steps 3 and 4 of has_permission (legacy global role, then each global
role), which are raise-free once the roles have been normalized. -/
def hpGlobalFallback (user_roles : List String) (legacy_role permission : String) : Bool :=
  (if legacy_role != "" && legacy_role != "user" then
      let rp := get_role_permissions_with_inheritance legacy_role
      rp.contains "*" || rp.contains permission
    else false)
  ||
  user_roles.any (fun role =>
    if role != "admin" then
      let role := if role = "user" then "student" else role
      let rp := get_role_permissions_with_inheritance role
      rp.contains "*" || rp.contains permission
    else false)

/-- has_permission(user, permission, class_id) of permissions.py.
Errors model Python exceptions escaping the call. -/
def has_permission (user : Val) (permission : String) (class_id : Option String) :
    Except String Bool :=
  if ¬ truthy user then .ok false else
  match user with
  | .dict u =>
    (normalizedRoles (getD u "roles" (.list []))).bind fun user_roles =>
    if user_roles.contains "admin" then .ok true else
    (pyLower (getD u "role" (.str ""))).bind fun legacy_role =>
    if legacy_role = "admin" then .ok true else
    let fallback := hpGlobalFallback user_roles legacy_role permission
    match class_id with
    | some cid =>
      if cid ≠ "" then
        let class_roles := getD u "classRoles" (.dict [])
        let viaClassRole : Except String Bool :=
          match class_roles with
          | .dict cr =>
            (pyLower (dictGetD cr (.str cid) (.str ""))).bind fun class_role =>
            if class_role ≠ "" then
              let class_role := if class_role = "user" then "student" else class_role
              let rp := get_role_permissions_with_inheritance class_role
              .ok (rp.contains "*" || rp.contains permission)
            else .ok false
          | _ => .ok false
        viaClassRole.bind fun hit =>
        if hit then .ok true else
        if ¬ truthy class_roles then
          (pyContains (.str cid) (getD u "access" (.list []))).bind fun acc =>
          if acc then
            let rp := get_role_permissions_with_inheritance "student"
            if rp.contains "*" || rp.contains permission then .ok true
            else .ok fallback
          else .ok fallback
        else .ok fallback
      else .ok fallback
    | Option.none => .ok fallback
  | _ => .error "AttributeError: get"

/-! ### class_membership_utils.py: normalize_class_memberships and
check_format_consistency -/

/-- Matches `isinstance(v, list) and v`. -/
def nonEmptyList : Val → Option (List Val)
  | .list (x :: xs) => some (x :: xs)
  | _ => Option.none

/-- Matches `isinstance(v, dict) and v`. -/
def nonEmptyDict : Val → Option (List (Val × Val))
  | .dict (x :: xs) => some (x :: xs)
  | _ => Option.none

/-- Priority 1 of normalize_class_memberships: one entry of the canonical
list built from a member of a populated class_memberships list.  Non-dict
entries and entries without a class_id key are dropped. -/
def canonEntry1 (m : Val) : Option Val :=
  match m with
  | .dict mk =>
    if hasKeyV mk (.str "class_id") then
      some (.dict [(.str "class_id", dictGetD mk (.str "class_id") .null),
                   (.str "role", dictGetD mk (.str "role") (.str "student")),
                   (.str "assigned_at", dictGetD mk (.str "assigned_at") .null),
                   (.str "assigned_by", dictGetD mk (.str "assigned_by") .null)])
    else Option.none
  | _ => Option.none

/-- Priority 1: canonical list from a populated class_memberships list. -/
def canonFromList (xs : List Val) : List Val := xs.filterMap canonEntry1

/-- Priority 2: canonical list from a legacy class_memberships dict. -/
def canonFromDict (kvs : List (Val × Val)) : List Val :=
  kvs.map fun kv =>
    let role := match kv.2 with
      | .dict vk => dictGetD vk (.str "role") (.str "student")
      | v => if truthy v then v else .str "student"
    .dict [(.str "class_id", kv.1), (.str "role", role)]

/-- Priority 3: canonical list from the classRoles dict. -/
def canonFromClassRoles (kvs : List (Val × Val)) : List Val :=
  kvs.map fun kv =>
    let role := match kv.2 with
      | .dict vk => dictGetD vk (.str "role") (.str "student")
      | v => v
    .dict [(.str "class_id", kv.1), (.str "role", if truthy role then role else .str "student")]

/-- Role inference from the legacy global role (priority 4 of
normalize_class_memberships). -/
def inferRoleFromGlobal (g : String) : String :=
  if g = "admin" ∨ g = "instructor" then "instructor"
  else if g = "ta" ∨ g = "grader" then "ta"
  else "student"

/-- Priority 4: canonical list from accessible_classes; falsy class ids are
skipped and the role is inferred from the lowered global role field. -/
def canonFromAccessible (xs : List Val) (g : String) : List Val :=
  (xs.filter (fun c => truthy c)).map fun c =>
    .dict [(.str "class_id", c), (.str "role", .str (inferRoleFromGlobal g))]

/-- The source-of-truth selection of normalize_class_memberships: the first
populated representation in priority order builds the canonical list.  Only
priority 4 can raise, through `user.get(role, ).lower()`. -/
def buildCanonical (u : List (Val × Val)) : Except String (List Val) :=
  let class_memberships := getD u "class_memberships" (.list [])
  let class_roles := getD u "classRoles" (.dict [])
  let accessible_classes := getD u "accessible_classes" (.list [])
  match nonEmptyList class_memberships with
  | some xs => .ok (canonFromList xs)
  | Option.none =>
  match nonEmptyDict class_memberships with
  | some kvs => .ok (canonFromDict kvs)
  | Option.none =>
  match nonEmptyDict class_roles with
  | some kvs => .ok (canonFromClassRoles kvs)
  | Option.none =>
  match nonEmptyList accessible_classes with
  | some xs => (pyLower (getD u "role" (.str ""))).map (canonFromAccessible xs)
  | Option.none => .ok []

/-- Python indexing `m[k]` restricted to a string key on a dict (used for the
canonical entries, which always carry the key). -/
def dictIdx (m : Val) (k : String) : Except String Val :=
  match m with
  | .dict mk =>
    if hasKeyV mk (.str k) then .ok (dictGetD mk (.str k) .null)
    else .error "KeyError"
  | _ => .error "TypeError: not subscriptable"

/-- The projection loop of normalize_class_memberships, one canonical entry
at a time: regenerate classRoles (dict assignment, so an unhashable class id
raises) and accessible_classes (plain append). -/
def buildLegacyAux : List Val → List (Val × Val) × List Val →
    Except String (List (Val × Val) × List Val)
  | [], acc => .ok acc
  | m :: rest, acc =>
    (dictIdx m "class_id").bind fun cid =>
    (dictIdx m "role").bind fun role =>
    (dictSetE acc.1 cid role).bind fun cr =>
    buildLegacyAux rest (cr, acc.2 ++ [cid])

/-- The projection loop of normalize_class_memberships over the whole
canonical list, starting from an empty dict and list. -/
def buildLegacy (canonical : List Val) : Except String (List (Val × Val) × List Val) :=
  buildLegacyAux canonical ([], [])

/-- normalize_class_memberships(user) of class_membership_utils.py. -/
def normalize_class_memberships (user : Val) : Except String Val :=
  if ¬ truthy user then .ok user else
  match user with
  | .dict u => do
    let canonical ← buildCanonical u
    let legacy ← buildLegacy canonical
    pure (.dict (dictSet (dictSet (dictSet u (.str "class_memberships") (.list canonical))
      (.str "classRoles") (.dict legacy.1)) (.str "accessible_classes") (.list legacy.2)))
  | _ => .error "AttributeError: get"

/-- The inconsistency reports of check_format_consistency, keeping the data
each report interpolates into its message. -/
inductive Issue where
  | cmMissing (classes : List Val)
  | cmExtra (classes : List Val)
  | crMissing (classes : List Val)
  | crExtra (classes : List Val)
  | acMissing (classes : List Val)
  | acExtra (classes : List Val)
  | roleMismatch (classId mRole crRole : Val)
deriving DecidableEq, Repr

/-- Python set add (sets modelled as insertion-ordered duplicate-free
lists; only membership and difference are ever observed). -/
def setAdd (s : List Val) (x : Val) : List Val :=
  if s.contains x then s else s ++ [x]

/-- Set add, raising TypeError on an unhashable element. -/
def setAddE (s : List Val) (x : Val) : Except String (List Val) :=
  if hashable x then .ok (setAdd s x) else .error "TypeError: unhashable"

/-- `set(xs)`. -/
def setOf (xs : List Val) : List Val := xs.foldl setAdd []

/-- `set(xs)` built one element at a time from a given set, where elements
may be unhashable. -/
def setOfEAux : List Val → List Val → Except String (List Val)
  | [], s => .ok s
  | x :: xs, s => (setAddE s x).bind fun s2 => setOfEAux xs s2

/-- `set(xs)` where elements may be unhashable. -/
def setOfE (xs : List Val) : Except String (List Val) := setOfEAux xs []

/-- Set union (left operand first, matching insertion order). -/
def setUnion (s t : List Val) : List Val := t.foldl setAdd s

/-- Python set equality. -/
def pySetEq (s t : List Val) : Bool := s.all t.contains && t.all s.contains

/-- Python set difference. -/
def pySetDiff (s t : List Val) : List Val := s.filter (fun x => ¬ t.contains x)

/-- The first loop of check_format_consistency, one entry at a time:
collect the class-id set and the per-class role map from a
class_memberships list. -/
def cmScanAux : List Val → List Val × List (Val × Val) →
    Except String (List Val × List (Val × Val))
  | [], acc => .ok acc
  | m :: rest, acc =>
    match m with
    | .dict mk =>
      if hasKeyV mk (.str "class_id") then
        let cid := dictGetD mk (.str "class_id") .null
        (setAddE acc.1 cid).bind fun s =>
        (dictSetE acc.2 cid (dictGetD mk (.str "role") (.str "student"))).bind fun r =>
        cmScanAux rest (s, r)
      else cmScanAux rest acc
    | _ => cmScanAux rest acc

/-- The first loop of check_format_consistency over the whole list. -/
def cmScan (xs : List Val) : Except String (List Val × List (Val × Val)) :=
  cmScanAux xs ([], [])

/-- One of the three identical set-comparison blocks of
check_format_consistency. -/
def shapeIssues (missingTag extraTag : List Val → Issue) (s allClasses : List Val) : List Issue :=
  if pySetEq s allClasses then []
  else
    let missing := pySetDiff allClasses s
    let extra := pySetDiff s allClasses
    (if ¬ missing.isEmpty then [missingTag missing] else []) ++
    (if ¬ extra.isEmpty then [extraTag extra] else [])

/-- The role-comparison loop of check_format_consistency: raw `!=` on the
two recorded role values, no lower-casing. -/
def roleMismatches : List (Val × Val) → List (Val × Val) → List Issue
  | [], _ => []
  | kv :: rest, mRoles =>
    (if hasKeyV mRoles kv.1 then
      let mr := dictGetD mRoles kv.1 .null
      if mr ≠ kv.2 then [.roleMismatch kv.1 mr kv.2] else []
    else []) ++ roleMismatches rest mRoles

/-- check_format_consistency(user) of class_membership_utils.py. -/
def check_format_consistency (user : Val) : Except String (Bool × List Issue) :=
  match user with
  | .dict u => do
    let class_memberships := getD u "class_memberships" (.list [])
    let class_roles := getD u "classRoles" (.dict [])
    let accessible_classes := getD u "accessible_classes" (.list [])
    let scan ← (match class_memberships with
      | .list xs => cmScan xs
      | _ => pure ([], []))
    let roles_classes := (match class_roles with
      | .dict kvs => setOf (kvs.map (fun kv => kv.1))
      | _ => [])
    let accessible_set ← (match accessible_classes with
      | .list xs => setOfE (xs.filter (fun c => truthy c))
      | _ => pure [])
    let all_classes := setUnion (setUnion scan.1 roles_classes) accessible_set
    let issues :=
      shapeIssues Issue.cmMissing Issue.cmExtra scan.1 all_classes ++
      shapeIssues Issue.crMissing Issue.crExtra roles_classes all_classes ++
      shapeIssues Issue.acMissing Issue.acExtra accessible_set all_classes ++
      (match class_roles with
        | .dict kvs => roleMismatches kvs scan.2
        | _ => [])
    pure (issues.isEmpty, issues)
  | _ => .error "AttributeError: get"

/-! ### class_auth.py: class-level catalog, role lookup, permission check,
role update -/

/-- The external user store (`db.get('users', key)`), with `null` standing
for a missing record.  `db.upsert` is modelled as a functional update keyed
by the identifier the record was fetched under. -/
def Store := Val → Val

/-- ROLE_PERMISSIONS of class_auth.py.  Note that ta carries the same five
permissions as instructor, manage_members included. -/
def ROLE_PERMISSIONS_class : String → Option (List String)
  | "instructor" => some ["manage_quizzes", "manage_tokens", "view_analytics",
      "manage_members", "take_quizzes"]
  | "ta" => some ["manage_quizzes", "manage_tokens", "view_analytics",
      "manage_members", "take_quizzes"]
  | "student" => some ["take_quizzes", "view_progress"]
  | _ => Option.none

/-- get_role_permissions(role) of class_auth.py on a dynamic role value:
`role.lower()` raises on a non-string. -/
def get_role_permissions_v (role : Val) : Except String (List String) :=
  (pyLower role).map fun r => (ROLE_PERMISSIONS_class r).getD []

/-- The membership-list scan of get_user_class_role: first dict entry whose
class_id equals the requested class, returning its role (default None). -/
def findMembershipRole : List Val → String → Option Val
  | [], _ => Option.none
  | m :: rest, class_id =>
    match m with
    | .dict mk =>
      if dictGetD mk (.str "class_id") .null = .str class_id then
        some (dictGetD mk (.str "role") .null)
      else findMembershipRole rest class_id
    | _ => findMembershipRole rest class_id

/-- The classRoles lookup used in the database fallback of
get_user_class_role. -/
def dbClassRolesLookup (du : List (Val × Val)) (class_id : String) : Val :=
  match getD du "classRoles" (.dict []) with
  | .dict kvs =>
    if hasKeyV kvs (.str class_id) then dictGetD kvs (.str class_id) .null else .null
  | _ => .null

/-- get_user_class_role(user, class_id) of class_auth.py; `null` is the
Python None returned when the user has no access.  `store` is the database
reached by the final fallback. -/
def get_user_class_role (store : Store) (user : Val) (class_id : String) :
    Except String Val :=
  match user with
  | .dict u =>
    (pyContains (.str "admin") (getD u "roles" (.list []))).bind fun isAdmin =>
    if isAdmin then .ok (.str "instructor") else
    let class_memberships := getD u "class_memberships" (.dict [])
    let fromCm : Option Val :=
      match class_memberships with
      | .list xs => findMembershipRole xs class_id
      | .dict kvs =>
        if hasKeyV kvs (.str class_id) then
          some (match dictGetD kvs (.str class_id) .null with
            | .dict mk => dictGetD mk (.str "role") .null
            | v => v)
        else Option.none
      | _ => Option.none
    match fromCm with
    | some r => .ok r
    | Option.none =>
    let class_roles := getD u "classRoles" (.dict [])
    let fromCr : Option Val :=
      match class_roles with
      | .dict kvs =>
        if hasKeyV kvs (.str class_id) then some (dictGetD kvs (.str class_id) .null)
        else Option.none
      | _ => Option.none
    match fromCr with
    | some r => .ok r
    | Option.none =>
    let accessible_classes := getD u "accessible_classes" (.list [])
    (pyContains (.str class_id) accessible_classes).bind fun inAcc =>
    if inAcc then
      (pyLower (getD u "role" (.str ""))).map fun g =>
        if g = "admin" ∨ g = "instructor" then .str "instructor"
        else if g = "ta" then .str "ta"
        else .str "student"
    else
    if ¬ truthy class_memberships ∧ ¬ truthy class_roles ∧ ¬ truthy accessible_classes then
      let user_id := getD u "user_id" .null
      if truthy user_id then
        let db_user := store user_id
        if truthy db_user then
          match db_user with
          | .dict du =>
            let viaDbCm : Option Val :=
              match getD du "class_memberships" (.list []) with
              | .list xs => findMembershipRole xs class_id
              | _ => Option.none
            match viaDbCm with
            | some r => .ok r
            | Option.none => .ok (dbClassRolesLookup du class_id)
          | _ => .error "AttributeError: get"
        else .ok .null
      else .ok .null
    else .ok .null
  | _ => .error "AttributeError: get"

/-- user_has_class_permission(user, class_id, permission) of class_auth.py. -/
def user_has_class_permission (store : Store) (user : Val) (class_id permission : String) :
    Except String Bool :=
  match user with
  | .dict u =>
    (pyContains (.str "admin") (getD u "roles" (.list []))).bind fun isAdmin =>
    if isAdmin then .ok true else
    (get_user_class_role store user class_id).bind fun role =>
    if ¬ truthy role then .ok false else
    (get_role_permissions_v role).map fun permissions =>
    permissions.contains permission
  | _ => .error "AttributeError: get"

/-- validate_role(role) of class_auth.py (no grader). -/
def validate_role (role : String) : Bool :=
  ["instructor", "ta", "student"].contains (strLower role)

/-- Python indexing `container[k]`. -/
def pyIndex (container k : Val) : Except String Val :=
  match container with
  | .dict kvs =>
    if hashable k then
      if hasKeyV kvs k then .ok (dictGetD kvs k .null) else .error "KeyError"
    else .error "TypeError: unhashable"
  | .list xs =>
    match k with
    | .int i =>
      if 0 ≤ i ∧ i.toNat < xs.length then .ok (xs.getD i.toNat .null)
      else .error "IndexError"
    | _ => .error "TypeError: list index"
  | _ => .error "TypeError: not subscriptable"

/-- Python item assignment `container[k] = v` as a functional update. -/
def pySetItem (container k v : Val) : Except String Val :=
  match container with
  | .dict kvs => (dictSetE kvs k v).map Val.dict
  | .list xs =>
    match k with
    | .int i =>
      if 0 ≤ i ∧ i.toNat < xs.length then .ok (.list (xs.set i.toNat v))
      else .error "IndexError"
    | _ => .error "TypeError: list index"
  | _ => .error "TypeError: not subscriptable"

/-- `v.get(k, dflt)` on a dynamic receiver. -/
def pyGetD (v : Val) (k : String) (dflt : Val) : Except String Val :=
  match v with
  | .dict kvs => .ok (getD kvs k dflt)
  | _ => .error "AttributeError: get"

/-- update_class_role(user_id, class_id, new_role, updated_by) of
class_auth.py.  `now` stands for datetime.utcnow().isoformat().  Returns the
upserted user document and the updated store; errors model the raised
ValueError / TypeError / AttributeError. -/
def update_class_role (store : Store) (user_id class_id new_role : String)
    (updated_by now : Val) : Except String (Val × Store) :=
  if ¬ (["instructor", "ta", "grader", "student"].contains (strLower new_role)) then
    .error "ValueError: invalid role"
  else
  let user := store (.str user_id)
  if ¬ truthy user then .error "ValueError: user not found" else
  match user with
  | .dict u =>
    if ¬ hasKeyV u (.str "class_memberships") then .error "ValueError: not a member"
    else
      let cmV := getD u "class_memberships" .null
      (pyContains (.str class_id) cmV).bind fun inCm =>
      if ¬ inCm then .error "ValueError: not a member"
      else
        (pyIndex cmV (.str class_id)).bind fun entry =>
        (pyGetD entry "role" .null).bind fun _old_role =>
        (pySetItem entry (.str "role") (.str (strLower new_role))).bind fun e1 =>
        (pySetItem e1 (.str "updated_at") now).bind fun e2 =>
        (pySetItem e2 (.str "updated_by") updated_by).bind fun e3 =>
        (pySetItem cmV (.str class_id) e3).bind fun cmV2 =>
        let u1 := dictSet u (.str "class_memberships") cmV2
        let withCr : Except String (List (Val × Val)) :=
          if hasKeyV u1 (.str "classRoles") then
            (pySetItem (getD u1 "classRoles" .null) (.str class_id)
              (.str (strLower new_role))).map fun crV2 =>
              dictSet u1 (.str "classRoles") crV2
          else .ok u1
        withCr.map fun u2 =>
        (.dict u2, fun k => if k = .str user_id then .dict u2 else store k)
  | _ => .error "TypeError: argument not iterable"

/-! ### classroom/api_routes.py: api_update_class_member -/

/-- Outcome of the PUT members route, by response class. -/
inductive RouteResult where
  | badRequest (msg : String)
  | forbidden (msg : String)
  | selfDenied
  | updated (user_id class_id role : String)
  | serverError (msg : String)
deriving DecidableEq, Repr

/-- api_update_class_member(class_id, user_id) of classroom/api_routes.py.
`body` is request.get_json(); `jwt_user` is request.jwt_user.  The blanket
`except Exception` of the route maps every raise to a 500, modelled by
`serverError`.  Returns the outcome together with the resulting store. -/
def api_update_class_member (store : Store) (jwt_user : Val) (class_id user_id : String)
    (body : Option Val) (now : Val) : RouteResult × Store :=
  match body with
  | Option.none => (.badRequest "No data provided", store)
  | some data =>
  if ¬ truthy data then (.badRequest "No data provided", store) else
  match data with
  | .dict d =>
    let new_role := getD d "role" .null
    if ¬ truthy new_role then (.badRequest "role is required", store) else
    match new_role with
    | .str nrs =>
      if ¬ validate_role nrs then (.badRequest "Invalid role", store) else
      match user_has_class_permission store jwt_user class_id "manage_members" with
      | .error e => (.serverError e, store)
      | .ok false => (.forbidden "Insufficient permissions to manage members for this class", store)
      | .ok true =>
        match jwt_user with
        | .dict ju =>
          let uid := getD ju "user_id" .null
          let updated_by := if truthy uid then uid else getD ju "email" .null
          if Val.str user_id = updated_by then (.selfDenied, store)
          else
            match update_class_role store user_id class_id nrs updated_by now with
            | .error e => (.serverError e, store)
            | .ok r => (.updated user_id class_id nrs, r.2)
        | _ => (.serverError "AttributeError: get", store)
    | _ => (.serverError "AttributeError: lower", store)
  | _ => (.serverError "AttributeError: get", store)

/-! ### scripts/migrate_student_enrollments.py -/

/-- The membership scan of analyze_user_enrollment: the first entry whose
class_id equals the course decides; its role is lowered and classified. -/
def analyzeLoop : List Val → String → Except String (Bool × String)
  | [], _ => .ok (true, "missing_enrollment")
  | m :: rest, course =>
    match m with
    | .dict mk =>
      if dictGetD mk (.str "class_id") .null = .str course then
        (pyLower (dictGetD mk (.str "role") (.str ""))).bind fun role =>
        if role = "instructor" ∨ role = "ta" then .ok (false, "already_" ++ role)
        else if role = "student" then .ok (false, "already_student")
        else .ok (true, "unknown_role_" ++ role)
      else analyzeLoop rest course
    | _ => .error "AttributeError: get"

/-- analyze_user_enrollment(user, course) of
scripts/migrate_student_enrollments.py. -/
def analyze_user_enrollment (user : Val) (course : String) : Except String (Bool × String) :=
  match user with
  | .dict u =>
    (pyIterElems (getD u "class_memberships" (.list []))).bind fun xs =>
    analyzeLoop xs course
  | _ => .error "AttributeError: get"

/-- One (student, course, submission_count) step of migrate_enrollments in
live mode: the user document written back for this pair, or none when the
pair needs no write.  The submission count is carried by the enrollment rows
but never consulted here (the threshold is applied by the SQL query that
produced the rows). -/
def migrate_pair (store : Store) (student course : String) (submission_count : Nat) :
    Except String (Option Val) :=
  let user := store (.str student)
  if ¬ truthy user then .ok Option.none else
  (analyze_user_enrollment user course).bind fun res =>
  if res.1 then
    match user with
    | .dict u =>
      let u1 := if hasKeyV u (.str "class_memberships") then u
                else dictSet u (.str "class_memberships") (.list [])
      match getD u1 "class_memberships" .null with
      | .list xs => .ok (some (.dict (dictSet u1 (.str "class_memberships")
          (.list (xs ++ [.dict [(.str "class_id", .str course), (.str "role", .str "student")]])))))
      | _ => .error "AttributeError: append"
    | _ => .error "AttributeError: get"
  else .ok Option.none

/-! ### Predicates and projections used to state the claims -/

/-- Field projection on a record value (null when absent or not a dict). -/
def fieldOf (v : Val) (k : String) : Val :=
  match v with
  | .dict kvs => getD kvs k .null
  | _ => .null

/-- Key-presence test on a record value. -/
def hasKeyOf (v : Val) (k : String) : Bool :=
  match v with
  | .dict kvs => hasKeyV kvs (.str k)
  | _ => false

/-- class_id of a membership entry. -/
def entryId (m : Val) : Val := fieldOf m "class_id"

/-- role of a membership entry. -/
def entryRole (m : Val) : Val := fieldOf m "role"

/-- A membership-entry dict as built by priorities 2 to 4 of
normalize_class_memberships: exactly class_id and role, in that order. -/
def Entry2 (v : Val) : Prop :=
  ∃ c r, v = .dict [(.str "class_id", c), (.str "role", r)]

/-- A membership-entry dict as built by priority 1 of
normalize_class_memberships: class_id, role, assigned_at, assigned_by. -/
def Entry4 (v : Val) : Prop :=
  ∃ c r a b, v = .dict [(.str "class_id", c), (.str "role", r),
    (.str "assigned_at", a), (.str "assigned_by", b)]

/-- The first entry of a membership list whose class_id equals the course
carries role instructor or ta (in any letter case).  This is the
"already holds the role" hypothesis of the backfill non-demotion claim. -/
inductive FirstMatchStaff (course : String) : List Val → Prop where
  | here (mk : List (Val × Val)) (rest : List Val) (r : String)
      (hid : dictGetD mk (.str "class_id") .null = .str course)
      (hrole : dictGetD mk (.str "role") (.str "") = .str r)
      (hstaff : strLower r = "instructor" ∨ strLower r = "ta") :
      FirstMatchStaff course (.dict mk :: rest)
  | there (mk : List (Val × Val)) (rest : List Val)
      (hid : dictGetD mk (.str "class_id") .null ≠ .str course)
      (htail : FirstMatchStaff course rest) :
      FirstMatchStaff course (.dict mk :: rest)

/-- The roles field is a string or a list of strings (the shapes on which
the roles normalization of has_permission cannot raise). -/
def rolesShapeOk : Val → Bool
  | .str _ => true
  | .list xs => xs.all (fun x => match x with | .str _ => true | _ => false)
  | _ => false

/-- The legacy role field is a string (its default when absent is one). -/
def roleFieldOk : Val → Bool
  | .str _ => true
  | _ => false

/-- classRoles either is not a dict (then it is skipped) or all its values
are strings (then the lookup-and-lower cannot raise). -/
def classRolesShapeOk : Val → Bool
  | .dict kvs => kvs.all (fun kv => match kv.2 with | .str _ => true | _ => false)
  | _ => true

/-- The access field is a container, so Python `in` cannot raise on it. -/
def accessShapeOk : Val → Bool
  | .list _ => true
  | .dict _ => true
  | .str _ => true
  | _ => false

/-- Every class id of the canonical list normalize would build is hashable
(vacuously true when the canonical build itself raises). -/
def canonicalIdsHashable (u : List (Val × Val)) : Bool :=
  match buildCanonical u with
  | .ok can => can.all (fun e => hashable (entryId e))
  | .error _ => true

/-- The four-key normal form of a membership entry: what priority 1 of
normalize_class_memberships rebuilds from an entry that carries class_id
and role keys. -/
def entry4of (e : Val) : Val :=
  .dict [(.str "class_id", entryId e), (.str "role", entryRole e),
         (.str "assigned_at", fieldOf e "assigned_at"),
         (.str "assigned_by", fieldOf e "assigned_by")]

/-- The projection loop expressed on bare (class_id, role) pairs. -/
def pairsFoldE : List (Val × Val) → List (Val × Val) × List Val →
    Except String (List (Val × Val) × List Val)
  | [], acc => .ok acc
  | p :: ps, acc =>
    (dictSetE acc.1 p.1 p.2).bind fun cr => pairsFoldE ps (cr, acc.2 ++ [p.1])

/-- Raise-free set accumulation. -/
def setFold (s : List Val) (xs : List Val) : List Val := xs.foldl setAdd s

/-- Raise-free dict accumulation of (key, value) pairs. -/
def assocFold (r : List (Val × Val)) (ps : List (Val × Val)) : List (Val × Val) :=
  ps.foldl (fun acc p => dictSet acc p.1 p.2) r

/-- The (class_id, role) pair sequence of a canonical list. -/
def entryPairs (can : List Val) : List (Val × Val) :=
  can.map (fun e => (entryId e, entryRole e))

/-- The class-id sequence of a canonical list. -/
def entryIds (can : List Val) : List Val := can.map entryId

/-- Every entry has one of the two canonical shapes. -/
def Shaped (can : List Val) : Prop := ∀ e ∈ can, Entry2 e ∨ Entry4 e

/-- The three field assignments at the end of normalize_class_memberships. -/
def setTriple (u : List (Val × Val)) (a b c : Val) : List (Val × Val) :=
  dictSet (dictSet (dictSet u (.str "class_memberships") a) (.str "classRoles") b)
    (.str "accessible_classes") c

/-- Every class id recorded in a record's canonical membership list is
truthy (vacuously true when the list is absent or oddly shaped). -/
def cmIdsTruthy (v : Val) : Bool :=
  match fieldOf v "class_memberships" with
  | .list can => can.all (fun e => truthy (entryId e))
  | _ => true

/-! ## Theorems -/

@[simp]
theorem ok_bindE {α β : Type} (a : α) (f : α → Except String β) :
    (Except.ok a : Except String α).bind f = f a := rfl

@[simp]
theorem error_bindE {α β : Type} (e : String) (f : α → Except String β) :
    (Except.error e : Except String α).bind f = .error e := rfl

@[simp]
theorem ok_bindM {α β : Type} (a : α) (f : α → Except String β) :
    (Except.ok a : Except String α) >>= f = f a := rfl

@[simp]
theorem error_bindM {α β : Type} (e : String) (f : α → Except String β) :
    (Except.error e : Except String α) >>= f = .error e := rfl

@[simp]
theorem ok_mapE {α β : Type} (a : α) (f : α → β) :
    (Except.ok a : Except String α).map f = .ok (f a) := rfl

@[simp]
theorem error_mapE {α β : Type} (e : String) (f : α → β) :
    (Except.error e : Except String α).map f = .error e := rfl

@[simp]
theorem pure_exceptE {α : Type} (a : α) :
    (pure a : Except String α) = .ok a := rfl

theorem dictGetD_cons (k1 v1 k d : Val) (rest : List (Val × Val)) :
    dictGetD ((k1, v1) :: rest) k d = if k1 = k then v1 else dictGetD rest k d := by
  by_cases h : k1 = k <;> simp [dictGetD, List.find?, h]

theorem hasKeyV_cons (k1 v1 k : Val) (rest : List (Val × Val)) :
    hasKeyV ((k1, v1) :: rest) k = (k1 = k || hasKeyV rest k) := by
  by_cases h : k1 = k <;> simp [hasKeyV, h]

theorem dictGetD_set_self (kvs : List (Val × Val)) (k v d : Val) :
    dictGetD (dictSet kvs k v) k d = v := by
  induction kvs with
  | nil => simp [dictSet, dictGetD_cons]
  | cons kv rest ih =>
    obtain ⟨k1, v1⟩ := kv
    by_cases h : k1 = k
    · simp [dictSet, h, dictGetD_cons]
    · simp [dictSet, h, dictGetD_cons, ih]

theorem dictGetD_set_other (kvs : List (Val × Val)) (k1 k v d : Val) (h : k1 ≠ k) :
    dictGetD (dictSet kvs k1 v) k d = dictGetD kvs k d := by
  induction kvs with
  | nil => simp [dictSet, dictGetD_cons, h, dictGetD]
  | cons kv rest ih =>
    obtain ⟨ka, va⟩ := kv
    by_cases ha : ka = k1
    · subst ha
      simp [dictSet, dictGetD_cons, h]
    · simp [dictSet, ha, dictGetD_cons, ih]

theorem dictSet_eq_self (kvs : List (Val × Val)) (k v : Val)
    (hk : hasKeyV kvs k = true) (hv : dictGetD kvs k .null = v) :
    dictSet kvs k v = kvs := by
  induction kvs with
  | nil => simp [hasKeyV] at hk
  | cons kv rest ih =>
    obtain ⟨k1, v1⟩ := kv
    by_cases h : k1 = k
    · subst h
      simp [dictGetD_cons] at hv
      simp [dictSet, hv]
    · simp [hasKeyV_cons, h] at hk
      simp [dictGetD_cons, h] at hv
      simp [dictSet, h, ih hk hv]

theorem dictSet_ne_nil (kvs : List (Val × Val)) (k v : Val) :
    dictSet kvs k v ≠ [] := by
  cases kvs with
  | nil => simp [dictSet]
  | cons kv rest =>
    obtain ⟨k1, v1⟩ := kv
    by_cases h : k1 = k <;> simp [dictSet, h]

theorem containsV_iff (l : List Val) (a : Val) : l.contains a = true ↔ a ∈ l :=
  List.elem_iff

theorem setAdd_of_mem (s : List Val) (x : Val) (hx : x ∈ s) : setAdd s x = s := by
  simp only [setAdd, (containsV_iff s x).mpr hx, if_true]

theorem setAdd_of_not_mem (s : List Val) (x : Val) (hx : x ∉ s) :
    setAdd s x = s ++ [x] := by
  have : s.contains x ≠ true := fun hc => hx ((containsV_iff s x).mp hc)
  simp only [setAdd, this, Bool.false_eq_true, if_false]

theorem mem_setAdd (s : List Val) (x y : Val) :
    y ∈ setAdd s x ↔ y ∈ s ∨ y = x := by
  by_cases hx : x ∈ s
  · rw [setAdd_of_mem s x hx]
    constructor
    · exact fun h => Or.inl h
    · rintro (h | h)
      · exact h
      · subst h; exact hx
  · rw [setAdd_of_not_mem s x hx]
    simp

theorem mem_setFold (xs : List Val) (s : List Val) (y : Val) :
    y ∈ setFold s xs ↔ y ∈ s ∨ y ∈ xs := by
  induction xs generalizing s with
  | nil => simp [setFold]
  | cons x rest ih =>
    simp only [setFold, List.foldl_cons] at *
    rw [ih (setAdd s x), mem_setAdd]
    simp
    tauto

theorem setUnion_of_subset (s t : List Val) (h : ∀ x ∈ t, x ∈ s) :
    setUnion s t = s := by
  induction t generalizing s with
  | nil => simp [setUnion]
  | cons x rest ih =>
    have hx : x ∈ s := h x (by simp)
    simp only [setUnion, List.foldl_cons, setAdd_of_mem s x hx]
    exact ih s (fun y hy => h y (by simp [hy]))

theorem pySetEq_self (s : List Val) : pySetEq s s = true := by
  simp [pySetEq, List.all_eq_true]

theorem shapeIssues_self (mt et : List Val → Issue) (s : List Val) :
    shapeIssues mt et s s = [] := by
  simp [shapeIssues, pySetEq_self]

theorem pySetEq_of_equiv (s t : List Val) (h : ∀ x, x ∈ s ↔ x ∈ t) :
    pySetEq s t = true := by
  simp [pySetEq, List.all_eq_true]
  exact ⟨fun x hx => (h x).mp hx, fun x hx => (h x).mpr hx⟩

theorem shapeIssues_of_equiv (mt et : List Val → Issue) (s t : List Val)
    (h : ∀ x, x ∈ s ↔ x ∈ t) : shapeIssues mt et s t = [] := by
  simp [shapeIssues, pySetEq_of_equiv s t h]

theorem mem_setOf (s : List Val) (y : Val) : y ∈ setOf s ↔ y ∈ s := by
  rw [show setOf s = setFold [] s from rfl, mem_setFold]
  simp

theorem hasKeyV_set_self (kvs : List (Val × Val)) (k v : Val) :
    hasKeyV (dictSet kvs k v) k = true := by
  induction kvs with
  | nil => simp [dictSet, hasKeyV]
  | cons kv rest ih =>
    obtain ⟨k1, v1⟩ := kv
    by_cases h : k1 = k
    · simp [dictSet, h, hasKeyV_cons]
    · simp [dictSet, h, hasKeyV_cons, ih]

theorem hasKeyV_set_other (kvs : List (Val × Val)) (k1 k v : Val) (h : k1 ≠ k) :
    hasKeyV (dictSet kvs k1 v) k = hasKeyV kvs k := by
  induction kvs with
  | nil => simp [dictSet, hasKeyV_cons, hasKeyV, h]
  | cons kv rest ih =>
    obtain ⟨ka, va⟩ := kv
    by_cases ha : ka = k1
    · subst ha
      simp [dictSet, hasKeyV_cons, h]
    · simp [dictSet, ha, hasKeyV_cons, ih]

theorem hasKeyV_iff (kvs : List (Val × Val)) (k : Val) :
    hasKeyV kvs k = true ↔ k ∈ kvs.map Prod.fst := by
  simp [hasKeyV, List.any_eq_true]

theorem map_fst_dictSet (kvs : List (Val × Val)) (k v : Val) :
    (dictSet kvs k v).map Prod.fst = setAdd (kvs.map Prod.fst) k := by
  induction kvs with
  | nil => simp [dictSet, setAdd]
  | cons kv rest ih =>
    obtain ⟨k1, v1⟩ := kv
    by_cases h : k1 = k
    · subst h
      rw [setAdd_of_mem _ k1 (by simp)]
      simp [dictSet]
    · simp only [dictSet, h, if_false, List.map_cons, ih]
      by_cases hm : k ∈ rest.map Prod.fst
      · rw [setAdd_of_mem _ k hm, setAdd_of_mem _ k (by simp [hm])]
      · rw [setAdd_of_not_mem _ k hm, setAdd_of_not_mem _ k (by simp [hm, Ne.symm h])]
        simp

theorem map_fst_assocFold (ps : List (Val × Val)) (r : List (Val × Val)) :
    (assocFold r ps).map Prod.fst = setFold (r.map Prod.fst) (ps.map Prod.fst) := by
  induction ps generalizing r with
  | nil => simp [assocFold, setFold]
  | cons p rest ih =>
    simp only [assocFold, List.foldl_cons, List.map_cons, setFold] at *
    rw [ih (dictSet r p.1 p.2), map_fst_dictSet]

theorem nodup_keys_dictSet (kvs : List (Val × Val)) (k v : Val)
    (h : (kvs.map Prod.fst).Nodup) : ((dictSet kvs k v).map Prod.fst).Nodup := by
  rw [map_fst_dictSet]
  by_cases hm : k ∈ kvs.map Prod.fst
  · rw [setAdd_of_mem _ k hm]; exact h
  · rw [setAdd_of_not_mem _ k hm]
    simp [List.nodup_append, h, hm]

theorem nodup_keys_assocFold (ps : List (Val × Val)) (r : List (Val × Val))
    (h : (r.map Prod.fst).Nodup) : ((assocFold r ps).map Prod.fst).Nodup := by
  induction ps generalizing r with
  | nil => simpa [assocFold]
  | cons p rest ih =>
    simp only [assocFold, List.foldl_cons] at *
    exact ih (dictSet r p.1 p.2) (nodup_keys_dictSet r p.1 p.2 h)

theorem dictGetD_of_mem_nodup (kvs : List (Val × Val)) (k v d : Val)
    (h : (kvs.map Prod.fst).Nodup) (hm : (k, v) ∈ kvs) : dictGetD kvs k d = v := by
  induction kvs with
  | nil => simp at hm
  | cons kv rest ih =>
    obtain ⟨k1, v1⟩ := kv
    rcases List.mem_cons.mp hm with he | hr
    · obtain ⟨he1, he2⟩ := Prod.mk.injEq .. ▸ he
      cases he
      simp [dictGetD_cons]
    · have hk1 : k1 ∉ rest.map Prod.fst := by
        simp only [List.map_cons, List.nodup_cons] at h
        exact h.1
      have hne : k1 ≠ k := by
        intro he
        subst he
        exact hk1 (List.mem_map.mpr ⟨(k1, v), hr, rfl⟩)
      have hrest : (rest.map Prod.fst).Nodup := by
        simp only [List.map_cons, List.nodup_cons] at h
        exact h.2
      simp [dictGetD_cons, hne, ih hrest hr]

theorem roleMismatches_agree (ps m : List (Val × Val))
    (h : ∀ p ∈ ps, hasKeyV m p.1 = true → dictGetD m p.1 .null = p.2) :
    roleMismatches ps m = [] := by
  induction ps with
  | nil => rfl
  | cons p rest ih =>
    have htail := ih (fun q hq => h q (by simp [hq]))
    by_cases hk : hasKeyV m p.1 = true
    · have := h p (by simp) hk
      simp [roleMismatches, hk, this, htail]
    · simp [roleMismatches, hk, htail]

theorem setOfEAux_hashable (xs s : List Val) (h : ∀ x ∈ xs, hashable x = true) :
    setOfEAux xs s = .ok (setFold s xs) := by
  induction xs generalizing s with
  | nil => simp [setOfEAux, setFold]
  | cons x rest ih =>
    have hx := h x (by simp)
    simp only [setOfEAux, setAddE, hx, if_true, ok_bindE, setFold, List.foldl_cons]
    exact ih (setAdd s x) (fun y hy => h y (by simp [hy]))

theorem entryId_dict2 (c r : Val) :
    entryId (.dict [(.str "class_id", c), (.str "role", r)]) = c := by
  simp [entryId, fieldOf, getD, dictGetD_cons]

theorem entryRole_dict2 (c r : Val) :
    entryRole (.dict [(.str "class_id", c), (.str "role", r)]) = r := by
  simp [entryRole, fieldOf, getD, dictGetD_cons]

theorem entryId_dict4 (c r a b : Val) :
    entryId (.dict [(.str "class_id", c), (.str "role", r),
      (.str "assigned_at", a), (.str "assigned_by", b)]) = c := by
  simp [entryId, fieldOf, getD, dictGetD_cons]

theorem entryRole_dict4 (c r a b : Val) :
    entryRole (.dict [(.str "class_id", c), (.str "role", r),
      (.str "assigned_at", a), (.str "assigned_by", b)]) = r := by
  simp [entryRole, fieldOf, getD, dictGetD_cons]

theorem entryId_entry4of (e : Val) : entryId (entry4of e) = entryId e :=
  entryId_dict4 ..

theorem entryRole_entry4of (e : Val) : entryRole (entry4of e) = entryRole e :=
  entryRole_dict4 ..

theorem entry4_entry4of (e : Val) : Entry4 (entry4of e) :=
  ⟨entryId e, entryRole e, fieldOf e "assigned_at", fieldOf e "assigned_by", rfl⟩

theorem entry4of_of_entry4 (e : Val) (h : Entry4 e) : entry4of e = e := by
  obtain ⟨c, r, a, b, rfl⟩ := h
  simp [entry4of, entryId_dict4, entryRole_dict4, fieldOf, getD, dictGetD_cons]

theorem canonEntry1_shaped (e : Val) (h : Entry2 e ∨ Entry4 e) :
    canonEntry1 e = some (entry4of e) := by
  rcases h with ⟨c, r, rfl⟩ | ⟨c, r, a, b, rfl⟩ <;>
    simp [canonEntry1, hasKeyV_cons, entry4of, entryId, entryRole, fieldOf, getD,
      dictGetD_cons]

theorem canonFromList_shaped (can : List Val) (h : Shaped can) :
    canonFromList can = can.map entry4of := by
  induction can with
  | nil => rfl
  | cons e rest ih =>
    have he := h e (by simp)
    have hrest : Shaped rest := fun x hx => h x (by simp [hx])
    simp only [canonFromList, List.filterMap_cons, canonEntry1_shaped e he, List.map_cons]
    have := ih hrest
    simp only [canonFromList] at this
    rw [this]

theorem map_entry4of_of_entry4 (can : List Val) (h : ∀ e ∈ can, Entry4 e) :
    can.map entry4of = can :=
  List.map_congr_left (fun e he => entry4of_of_entry4 e (h e he)) |>.trans can.map_id

theorem entry4_canonFromList (xs : List Val) : ∀ e ∈ canonFromList xs, Entry4 e := by
  intro e he
  obtain ⟨m, _hm, hc⟩ := List.mem_filterMap.mp he
  match m with
  | .null | .bool _ | .int _ | .str _ | .list _ => simp [canonEntry1] at hc
  | .dict mk =>
    by_cases hk : hasKeyV mk (.str "class_id") = true
    · simp [canonEntry1, hk] at hc
      exact ⟨_, _, _, _, hc.symm⟩
    · simp [canonEntry1, hk] at hc

theorem entryPairs_map_entry4of (can : List Val) :
    entryPairs (can.map entry4of) = entryPairs can := by
  simp [entryPairs, List.map_map]
  intro e _
  simp [entryId_entry4of, entryRole_entry4of]

theorem entryIds_map_entry4of (can : List Val) :
    entryIds (can.map entry4of) = entryIds can := by
  simp [entryIds, List.map_map]
  intro e _
  simp [entryId_entry4of]

theorem dictIdx_id_shaped (e : Val) (h : Entry2 e ∨ Entry4 e) :
    dictIdx e "class_id" = .ok (entryId e) := by
  rcases h with ⟨c, r, rfl⟩ | ⟨c, r, a, b, rfl⟩ <;>
    simp [dictIdx, hasKeyV_cons, dictGetD_cons, entryId_dict2, entryId_dict4]

theorem dictIdx_role_shaped (e : Val) (h : Entry2 e ∨ Entry4 e) :
    dictIdx e "role" = .ok (entryRole e) := by
  rcases h with ⟨c, r, rfl⟩ | ⟨c, r, a, b, rfl⟩ <;>
    simp [dictIdx, hasKeyV_cons, dictGetD_cons, entryRole_dict2, entryRole_dict4]

theorem buildLegacyAux_shaped (can : List Val) (h : Shaped can)
    (acc : List (Val × Val) × List Val) :
    buildLegacyAux can acc = pairsFoldE (entryPairs can) acc := by
  induction can generalizing acc with
  | nil => rfl
  | cons e rest ih =>
    have he := h e (by simp)
    have hrest : Shaped rest := fun x hx => h x (by simp [hx])
    simp only [buildLegacyAux, dictIdx_id_shaped e he, dictIdx_role_shaped e he,
      ok_bindE, entryPairs, List.map_cons, pairsFoldE]
    cases hd : dictSetE acc.1 (entryId e) (entryRole e) with
    | error msg => rfl
    | ok cr =>
      simp only [ok_bindE]
      have := ih hrest (cr, acc.2 ++ [entryId e])
      simpa [entryPairs] using this

theorem pairsFoldE_hashable (ps : List (Val × Val))
    (h : ∀ p ∈ ps, hashable p.1 = true) (r : List (Val × Val)) (a : List Val) :
    pairsFoldE ps (r, a) = .ok (assocFold r ps, a ++ ps.map Prod.fst) := by
  induction ps generalizing r a with
  | nil => simp [pairsFoldE, assocFold]
  | cons p rest ih =>
    have hp := h p (by simp)
    simp only [pairsFoldE, dictSetE, hp, if_true, ok_bindE]
    rw [ih (fun q hq => h q (by simp [hq])) (dictSet r p.1 p.2) (a ++ [p.1])]
    simp [assocFold]

theorem pairsFoldE_ok_hashable (ps : List (Val × Val))
    (acc : List (Val × Val) × List Val) (out : List (Val × Val) × List Val)
    (h : pairsFoldE ps acc = .ok out) : ∀ p ∈ ps, hashable p.1 = true := by
  induction ps generalizing acc with
  | nil => simp
  | cons p rest ih =>
    by_cases hp : hashable p.1 = true
    · intro q hq
      rcases List.mem_cons.mp hq with he | hr
      · subst he; exact hp
      · simp only [pairsFoldE, dictSetE, hp, if_true, ok_bindE] at h
        exact ih _ h q hr
    · exfalso
      simp only [pairsFoldE, dictSetE, hp, Bool.false_eq_true, if_false, error_bindE] at h
      exact absurd h (by simp)

theorem cmScanAux_shaped (can : List Val) (h : Shaped can)
    (hh : ∀ e ∈ can, hashable (entryId e) = true)
    (s : List Val) (r : List (Val × Val)) :
    cmScanAux can (s, r) = .ok (setFold s (entryIds can), assocFold r (entryPairs can)) := by
  induction can generalizing s r with
  | nil => simp [cmScanAux, setFold, assocFold, entryIds, entryPairs]
  | cons e rest ih =>
    have he := h e (by simp)
    have hhe := hh e (by simp)
    have hrest : Shaped rest := fun x hx => h x (by simp [hx])
    have hhrest : ∀ x ∈ rest, hashable (entryId x) = true :=
      fun x hx => hh x (by simp [hx])
    rcases he with ⟨c, r0, rfl⟩ | ⟨c, r0, a0, b0, rfl⟩
    · rw [entryId_dict2] at hhe
      simp only [cmScanAux, hasKeyV_cons, dictGetD_cons, setAddE, dictSetE, hhe, if_true,
        ok_bindE, entryIds, entryPairs, List.map_cons, setFold, List.foldl_cons, assocFold]
      have := ih hrest hhrest (setAdd s c) (dictSet r c r0)
      simp only [entryIds, entryPairs, setFold, assocFold] at this
      simp only [entryId_dict2, entryRole_dict2]
      simpa using this
    · rw [entryId_dict4] at hhe
      simp only [cmScanAux, hasKeyV_cons, dictGetD_cons, setAddE, dictSetE, hhe, if_true,
        ok_bindE, entryIds, entryPairs, List.map_cons, setFold, List.foldl_cons, assocFold]
      have := ih hrest hhrest (setAdd s c) (dictSet r c r0)
      simp only [entryIds, entryPairs, setFold, assocFold] at this
      simp only [entryId_dict4, entryRole_dict4]
      simpa using this

theorem buildCanonical_of_cm_cons (u : List (Val × Val)) (e : Val) (rest : List Val)
    (h1 : getD u "class_memberships" (.list []) = .list (e :: rest)) :
    buildCanonical u = .ok (canonFromList (e :: rest)) := by
  simp [buildCanonical, h1, nonEmptyList]

theorem buildCanonical_of_all_empty (u : List (Val × Val))
    (h1 : getD u "class_memberships" (.list []) = .list [])
    (h2 : getD u "classRoles" (.dict []) = .dict [])
    (h3 : getD u "accessible_classes" (.list []) = .list []) :
    buildCanonical u = .ok [] := by
  simp [buildCanonical, h1, h2, h3, nonEmptyList, nonEmptyDict]

theorem entry2_canonFromDict (kvs : List (Val × Val)) :
    ∀ e ∈ canonFromDict kvs, Entry2 e := by
  intro e he
  obtain ⟨kv, _hkv, hc⟩ := List.mem_map.mp he
  exact ⟨kv.1, _, hc.symm⟩

theorem entry2_canonFromClassRoles (kvs : List (Val × Val)) :
    ∀ e ∈ canonFromClassRoles kvs, Entry2 e := by
  intro e he
  obtain ⟨kv, _hkv, hc⟩ := List.mem_map.mp he
  exact ⟨kv.1, _, hc.symm⟩

theorem entry2_canonFromAccessible (xs : List Val) (g : String) :
    ∀ e ∈ canonFromAccessible xs g, Entry2 e := by
  intro e he
  obtain ⟨c, _hc, hc2⟩ := List.mem_map.mp he
  exact ⟨c, _, hc2.symm⟩

theorem buildCanonical_shape (u : List (Val × Val)) (can : List Val)
    (h : buildCanonical u = .ok can) : Shaped can := by
  unfold buildCanonical at h
  cases h1 : nonEmptyList (getD u "class_memberships" (.list [])) with
  | some xs =>
    simp only [h1, Except.ok.injEq] at h
    subst h
    exact fun e he => Or.inr (entry4_canonFromList xs e he)
  | none =>
  simp only [h1] at h
  cases h2 : nonEmptyDict (getD u "class_memberships" (.list [])) with
  | some kvs =>
    simp only [h2, Except.ok.injEq] at h
    subst h
    exact fun e he => Or.inl (entry2_canonFromDict kvs e he)
  | none =>
  simp only [h2] at h
  cases h3 : nonEmptyDict (getD u "classRoles" (.dict [])) with
  | some kvs =>
    simp only [h3, Except.ok.injEq] at h
    subst h
    exact fun e he => Or.inl (entry2_canonFromClassRoles kvs e he)
  | none =>
  simp only [h3] at h
  cases h4 : nonEmptyList (getD u "accessible_classes" (.list [])) with
  | some xs =>
    simp only [h4] at h
    cases h5 : pyLower (getD u "role" (.str "")) with
    | error msg => rw [h5] at h; simp at h
    | ok g =>
      rw [h5] at h
      simp only [ok_mapE, Except.ok.injEq] at h
      subst h
      exact fun e he => Or.inl (entry2_canonFromAccessible xs g e he)
  | none =>
    simp only [h4, Except.ok.injEq] at h
    subst h
    exact fun e he => absurd he (List.not_mem_nil e)

theorem normalize_dict_unfold (u : List (Val × Val)) (can : List Val)
    (la : List (Val × Val) × List Val)
    (hu : u ≠ []) (hc : buildCanonical u = .ok can) (hl : buildLegacy can = .ok la) :
    normalize_class_memberships (.dict u) =
      .ok (.dict (setTriple u (.list can) (.dict la.1) (.list la.2))) := by
  have ht : truthy (.dict u) = true := by
    cases u with
    | nil => exact absurd rfl hu
    | cons a l => simp [truthy]
  simp [normalize_class_memberships, ht, hc, hl, setTriple]

theorem getD_setTriple_cm (u : List (Val × Val)) (a b c d : Val) :
    dictGetD (setTriple u a b c) (.str "class_memberships") d = a := by
  rw [setTriple, dictGetD_set_other _ _ _ _ _ (by decide),
    dictGetD_set_other _ _ _ _ _ (by decide), dictGetD_set_self]

theorem getD_setTriple_cr (u : List (Val × Val)) (a b c d : Val) :
    dictGetD (setTriple u a b c) (.str "classRoles") d = b := by
  rw [setTriple, dictGetD_set_other _ _ _ _ _ (by decide), dictGetD_set_self]

theorem getD_setTriple_ac (u : List (Val × Val)) (a b c d : Val) :
    dictGetD (setTriple u a b c) (.str "accessible_classes") d = c := by
  rw [setTriple, dictGetD_set_self]

theorem hasKey_setTriple_cm (u : List (Val × Val)) (a b c : Val) :
    hasKeyV (setTriple u a b c) (.str "class_memberships") = true := by
  rw [setTriple, hasKeyV_set_other _ _ _ _ (by decide),
    hasKeyV_set_other _ _ _ _ (by decide)]
  exact hasKeyV_set_self ..

theorem hasKey_setTriple_cr (u : List (Val × Val)) (a b c : Val) :
    hasKeyV (setTriple u a b c) (.str "classRoles") = true := by
  rw [setTriple, hasKeyV_set_other _ _ _ _ (by decide)]
  exact hasKeyV_set_self ..

theorem hasKey_setTriple_ac (u : List (Val × Val)) (a b c : Val) :
    hasKeyV (setTriple u a b c) (.str "accessible_classes") = true := by
  rw [setTriple]
  exact hasKeyV_set_self ..

theorem setTriple_ne_nil (u : List (Val × Val)) (a b c : Val) :
    setTriple u a b c ≠ [] := by
  rw [setTriple]
  exact dictSet_ne_nil _ _ _

theorem setTriple_eq_self (w : List (Val × Val)) (a b c : Val)
    (hk1 : hasKeyV w (.str "class_memberships") = true)
    (h1 : dictGetD w (.str "class_memberships") .null = a)
    (hk2 : hasKeyV w (.str "classRoles") = true)
    (h2 : dictGetD w (.str "classRoles") .null = b)
    (hk3 : hasKeyV w (.str "accessible_classes") = true)
    (h3 : dictGetD w (.str "accessible_classes") .null = c) :
    setTriple w a b c = w := by
  rw [setTriple, dictSet_eq_self w _ a hk1 h1, dictSet_eq_self w _ b hk2 h2,
    dictSet_eq_self w _ c hk3 h3]

theorem map_fst_entryPairs (can : List Val) :
    (entryPairs can).map Prod.fst = entryIds can := by
  simp [entryPairs, entryIds, List.map_map]

theorem entry4_map_entry4of (can : List Val) : ∀ e ∈ can.map entry4of, Entry4 e := by
  intro e he
  obtain ⟨x, _, rfl⟩ := List.mem_map.mp he
  exact entry4_entry4of x

/-- The whole second-pass normal form: what one application of normalize to a
normalize output looks like.  When a record is the image of a truthy dict
under normalize with canonical list can and legacy pair la, applying
normalize to it yields the same record with the canonical entries upgraded
to their four-key form, and the legacy projections unchanged. -/
theorem normalize_of_setTriple (w : List (Val × Val)) (can : List Val)
    (la : List (Val × Val) × List Val)
    (hw : getD w "class_memberships" (.list []) = .list can)
    (hcr : getD w "classRoles" (.dict []) = .dict la.1)
    (hac : getD w "accessible_classes" (.list []) = .list la.2)
    (hwne : w ≠ [])
    (hsh : Shaped can)
    (hla : pairsFoldE (entryPairs can) ([], []) = .ok la) :
    normalize_class_memberships (.dict w) =
      .ok (.dict (setTriple w (.list (can.map entry4of)) (.dict la.1) (.list la.2))) := by
  cases hce : can with
  | nil =>
    have hla0 : la = ([], []) := by
      subst hce
      simpa [pairsFoldE, entryPairs] using hla.symm
    have hbc : buildCanonical w = .ok [] := by
      apply buildCanonical_of_all_empty w
      · simpa [hce] using hw
      · rw [hcr, hla0]
      · rw [hac, hla0]
    have hbl : buildLegacy ([] : List Val) = .ok la := by
      simp [buildLegacy, buildLegacyAux, hla0]
    have := normalize_dict_unfold w [] la hwne hbc hbl
    simpa using this
  | cons e rest =>
    subst hce
    have hbc : buildCanonical w = .ok (canonFromList (e :: rest)) :=
      buildCanonical_of_cm_cons w e rest hw
    rw [canonFromList_shaped _ hsh] at hbc
    have hbl : buildLegacy ((e :: rest).map entry4of) = .ok la := by
      rw [buildLegacy, buildLegacyAux_shaped _ (fun x hx => Or.inr (entry4_map_entry4of _ x hx)) _,
        entryPairs_map_entry4of]
      exact hla
    exact normalize_dict_unfold w ((e :: rest).map entry4of) la hwne hbc hbl

/-- C1: for every principal record whose normalized global roles contain
admin, or whose roles field normalizes without raising while the legacy
single-role field lowercases to admin, has_permission allows any capability
for any class id (present or not), returning ok true before any class-scoped
or fallback logic runs. -/
theorem admin_short_circuit (u : List (Val × Val)) (c : String) (k : Option String)
    (h : (∃ ls, normalizedRoles (getD u "roles" (.list [])) = .ok ls ∧ "admin" ∈ ls)
       ∨ ((∃ ls, normalizedRoles (getD u "roles" (.list [])) = .ok ls)
            ∧ pyLower (getD u "role" (.str "")) = .ok "admin")) :
    has_permission (.dict u) c k = .ok true := by
  have hu : u ≠ [] := by
    intro he
    subst he
    rcases h with ⟨ls, hls, hmem⟩ | ⟨⟨ls, hls⟩, hleg⟩
    · have : ls = [] := by
        have : normalizedRoles (getD [] "roles" (.list [])) = .ok [] := rfl
        rw [this] at hls
        exact (Except.ok.injEq _ _).mp hls.symm
      simp [this] at hmem
    · have : pyLower (getD ([] : List (Val × Val)) "role" (.str "")) = .ok "" := rfl
      rw [this] at hleg
      simp at hleg
  have ht : truthy (.dict u) = true := by
    cases u with
    | nil => exact absurd rfl hu
    | cons a l => simp [truthy]
  rcases h with ⟨ls, hls, hmem⟩ | ⟨⟨ls, hls⟩, hleg⟩
  · simp only [has_permission, ht, Bool.not_true, Bool.false_eq_true, if_false, hls]
    simp [Except.bind, hmem]
  · simp only [has_permission, ht, Bool.not_true, Bool.false_eq_true, if_false, hls]
    by_cases hc : "admin" ∈ ls
    · simp [Except.bind, hc]
    · simp [Except.bind, hc, hleg]

/-- C1 witness: a record with global role Admin is allowed an arbitrary
capability for a nonexistent class. -/
theorem admin_short_circuit_witness :
    has_permission (.dict [(.str "roles", .list [.str "Admin"])]) "quiz.delete"
      (some "no_such_class") = .ok true :=
  admin_short_circuit _ _ _ (Or.inl ⟨["admin"], rfl, by decide⟩)

/-- C2 (counterexample to the claim): for the scenario principal with the
single canonical membership (cda, ta), the class-scoped check grants
manage_members — the class_auth catalog gives ta that capability — where the
claim asserts it is denied. -/
theorem ta_manage_members_granted :
    user_has_class_permission (fun _ => .null)
      (.dict [(.str "roles", .list []),
              (.str "class_memberships",
               .list [.dict [(.str "class_id", .str "cda"), (.str "role", .str "ta")]])])
      "cda" "manage_members" = .ok true := rfl

/-- C2 (amended): the scenario principal is granted manage_quizzes for cda,
and is also granted manage_members for cda, since the ta entry of the
class_auth ROLE_PERMISSIONS catalog lists both capabilities. -/
theorem ta_class_permissions_scenario :
    user_has_class_permission (fun _ => .null)
      (.dict [(.str "roles", .list []),
              (.str "class_memberships",
               .list [.dict [(.str "class_id", .str "cda"), (.str "role", .str "ta")]])])
      "cda" "manage_quizzes" = .ok true ∧
    user_has_class_permission (fun _ => .null)
      (.dict [(.str "roles", .list []),
              (.str "class_memberships",
               .list [.dict [(.str "class_id", .str "cda"), (.str "role", .str "ta")]])])
      "cda" "manage_members" = .ok true := ⟨rfl, rfl⟩

/-- Helper for C7: when the first matching membership entry carries an
instructor or ta role, analyze_user_enrollment's scan reports the pair as
already enrolled (needs_enrollment false). -/
theorem analyzeLoop_staff (course : String) (xs : List Val)
    (h : FirstMatchStaff course xs) :
    ∃ r, (r = "instructor" ∨ r = "ta") ∧
      analyzeLoop xs course = .ok (false, "already_" ++ r) := by
  induction h with
  | here mk rest r hid hrole hstaff =>
    refine ⟨strLower r, hstaff, ?_⟩
    simp only [analyzeLoop, hid, if_true, hrole, pyLower, Except.bind]
    rcases hstaff with h1 | h1 <;> simp [h1]
  | there mk rest hid htail ih =>
    simpa [analyzeLoop, hid] using ih

theorem dictGetD_default_irrel (kvs : List (Val × Val)) (k d1 d2 : Val)
    (hk : hasKeyV kvs k = true) : dictGetD kvs k d1 = dictGetD kvs k d2 := by
  induction kvs with
  | nil => simp [hasKeyV] at hk
  | cons kv rest ih =>
    obtain ⟨k1, v1⟩ := kv
    by_cases h : k1 = k
    · simp [dictGetD_cons, h]
    · simp only [hasKeyV_cons, h] at hk
      simp only [dictGetD_cons, h, if_false]
      exact ih (by simpa using hk)

/-- Helper for C3: on a list of well-formed membership entries (dicts with
class_id and role keys), priority 1 of the normalizer preserves the
(class_id, role) pair of every entry, in order. -/
theorem entryPairs_canonFromList (xs : List Val)
    (hent : ∀ m ∈ xs, ∃ mk, m = .dict mk ∧ hasKeyV mk (.str "class_id") = true ∧
      hasKeyV mk (.str "role") = true) :
    entryPairs (canonFromList xs) = entryPairs xs := by
  induction xs with
  | nil => rfl
  | cons m rest ih =>
    obtain ⟨mk, rfl, hkc, hkr⟩ := hent m (by simp)
    have hrest := ih (fun q hq => hent q (by simp [hq]))
    have hce : canonEntry1 (.dict mk) =
        some (.dict [(.str "class_id", dictGetD mk (.str "class_id") .null),
          (.str "role", dictGetD mk (.str "role") (.str "student")),
          (.str "assigned_at", dictGetD mk (.str "assigned_at") .null),
          (.str "assigned_by", dictGetD mk (.str "assigned_by") .null)]) := by
      simp [canonEntry1, hkc]
    simp only [canonFromList, List.filterMap_cons, hce, entryPairs, List.map_cons]
    simp only [canonFromList, entryPairs] at hrest
    rw [hrest]
    have hid : entryId (.dict [(.str "class_id", dictGetD mk (.str "class_id") .null),
        (.str "role", dictGetD mk (.str "role") (.str "student")),
        (.str "assigned_at", dictGetD mk (.str "assigned_at") .null),
        (.str "assigned_by", dictGetD mk (.str "assigned_by") .null)]) =
        entryId (.dict mk) := entryId_dict4 ..
    have hrole : entryRole (.dict [(.str "class_id", dictGetD mk (.str "class_id") .null),
        (.str "role", dictGetD mk (.str "role") (.str "student")),
        (.str "assigned_at", dictGetD mk (.str "assigned_at") .null),
        (.str "assigned_by", dictGetD mk (.str "assigned_by") .null)]) =
        entryRole (.dict mk) := by
      rw [entryRole_dict4]
      exact dictGetD_default_irrel mk (.str "role") (.str "student") .null hkr
    rw [hid, hrole]

/-- C3: when class_memberships is a populated list of well-formed entries
(dicts carrying class_id and role, with hashable ids), normalize trusts it
outright: the canonical list keeps exactly those entries' (class_id, role)
pairs in order, the regenerated accessible_classes is exactly the entries'
id sequence, and every regenerated classRoles key comes from those entries —
classes present only in the old classRoles or accessible_classes shapes are
dropped, not merged. -/
theorem priority_source_exclusivity (u : List (Val × Val)) (xs : List Val)
    (hcm : getD u "class_memberships" (.list []) = .list xs)
    (hne : xs ≠ [])
    (hent : ∀ m ∈ xs, ∃ mk, m = .dict mk ∧ hasKeyV mk (.str "class_id") = true ∧
      hasKeyV mk (.str "role") = true ∧ hashable (entryId m) = true) :
    ∃ can cr,
      normalize_class_memberships (.dict u) =
        .ok (.dict (setTriple u (.list can) (.dict cr) (.list (xs.map entryId)))) ∧
      entryPairs can = entryPairs xs ∧
      (∀ c, hasKeyV cr c = true → c ∈ xs.map entryId) := by
  have hu : u ≠ [] := by
    intro he
    subst he
    have : Val.list [] = Val.list xs := hcm
    exact hne ((Val.list.injEq _ _).mp this).symm
  have hpairs : entryPairs (canonFromList xs) = entryPairs xs :=
    entryPairs_canonFromList xs (fun m hm => by
      obtain ⟨mk, hmk, h1, h2, _⟩ := hent m hm
      exact ⟨mk, hmk, h1, h2⟩)
  have hids : entryIds (canonFromList xs) = xs.map entryId := by
    have h1 := congrArg (List.map Prod.fst) hpairs
    rw [map_fst_entryPairs, map_fst_entryPairs] at h1
    exact h1
  have hhash : ∀ p ∈ entryPairs (canonFromList xs), hashable p.1 = true := by
    rw [hpairs]
    intro p hp
    obtain ⟨m, hm, rfl⟩ := List.mem_map.mp hp
    obtain ⟨mk, hmk, _, _, hh⟩ := hent m hm
    exact hh
  obtain ⟨e, rest, rfl⟩ : ∃ e rest, xs = e :: rest := by
    cases xs with
    | nil => exact absurd rfl hne
    | cons e rest => exact ⟨e, rest, rfl⟩
  have hbc : buildCanonical u = .ok (canonFromList (e :: rest)) :=
    buildCanonical_of_cm_cons u e rest hcm
  have hsh : Shaped (canonFromList (e :: rest)) :=
    fun x hx => Or.inr (entry4_canonFromList _ x hx)
  have hbl : buildLegacy (canonFromList (e :: rest)) =
      .ok (assocFold [] (entryPairs (canonFromList (e :: rest))),
        entryIds (canonFromList (e :: rest))) := by
    rw [buildLegacy, buildLegacyAux_shaped _ hsh, pairsFoldE_hashable _ hhash]
    simp [map_fst_entryPairs]
  refine ⟨canonFromList (e :: rest), assocFold [] (entryPairs (canonFromList (e :: rest))),
    ?_, hpairs, ?_⟩
  · have := normalize_dict_unfold u (canonFromList (e :: rest)) _ hu hbc hbl
    rw [this]
    rw [show (assocFold [] (entryPairs (canonFromList (e :: rest))),
      entryIds (canonFromList (e :: rest))).2 = (e :: rest).map entryId from hids]
  · intro c hk
    rw [hasKeyV_iff, map_fst_assocFold, map_fst_entryPairs] at hk
    have : c ∈ entryIds (canonFromList (e :: rest)) := by
      have h2 := mem_setFold (entryIds (canonFromList (e :: rest))) [] c |>.mp (by simpa using hk)
      simpa using h2
    rw [hids] at this
    exact this

/-- C3 witness: a record holding one canonical entry for cda and a stray
accessible_classes entry for another class keeps only cda. -/
theorem priority_source_exclusivity_witness :
    ∃ can cr,
      normalize_class_memberships (.dict
        [(.str "class_memberships",
          .list [.dict [(.str "class_id", .str "cda"), (.str "role", .str "ta")]]),
         (.str "accessible_classes", .list [.str "other"])]) =
        .ok (.dict (setTriple
          [(.str "class_memberships",
            .list [.dict [(.str "class_id", .str "cda"), (.str "role", .str "ta")]]),
           (.str "accessible_classes", .list [.str "other"])]
          (.list can) (.dict cr)
          (.list ([.dict [(.str "class_id", .str "cda"), (.str "role", .str "ta")]].map entryId)))) ∧
      entryPairs can =
        entryPairs [.dict [(.str "class_id", .str "cda"), (.str "role", .str "ta")]] ∧
      (∀ c, hasKeyV cr c = true →
        c ∈ [Val.dict [(.str "class_id", .str "cda"), (.str "role", .str "ta")]].map entryId) :=
  priority_source_exclusivity _ _ rfl (by decide) (by
    intro m hm
    rw [List.mem_singleton] at hm
    subst hm
    exact ⟨[(.str "class_id", .str "cda"), (.str "role", .str "ta")], rfl,
      by decide, by decide, by decide⟩)

/-- C4 (counterexample to the claim): starting from the classRoles shape,
the first normalize pass builds a canonical entry carrying only class_id and
role, while the second pass rebuilds it with the assigned_at and assigned_by
metadata keys added (value None), so normalize(normalize(P)) differs from
normalize(P): the entry dicts differ in their key sets, which Python dict
equality distinguishes. -/
theorem normalize_not_idempotent_once :
    normalize_class_memberships (.dict [(.str "classRoles", .dict [(.str "x", .str "ta")])]) =
      .ok (.dict [(.str "classRoles", .dict [(.str "x", .str "ta")]),
        (.str "class_memberships",
         .list [.dict [(.str "class_id", .str "x"), (.str "role", .str "ta")]]),
        (.str "accessible_classes", .list [.str "x"])]) ∧
    normalize_class_memberships (.dict [(.str "classRoles", .dict [(.str "x", .str "ta")]),
        (.str "class_memberships",
         .list [.dict [(.str "class_id", .str "x"), (.str "role", .str "ta")]]),
        (.str "accessible_classes", .list [.str "x"])]) =
      .ok (.dict [(.str "classRoles", .dict [(.str "x", .str "ta")]),
        (.str "class_memberships",
         .list [.dict [(.str "class_id", .str "x"), (.str "role", .str "ta"),
           (.str "assigned_at", .null), (.str "assigned_by", .null)]]),
        (.str "accessible_classes", .list [.str "x"])]) ∧
    (Val.dict [(.str "classRoles", .dict [(.str "x", .str "ta")]),
        (.str "class_memberships",
         .list [.dict [(.str "class_id", .str "x"), (.str "role", .str "ta"),
           (.str "assigned_at", .null), (.str "assigned_by", .null)]]),
        (.str "accessible_classes", .list [.str "x"])]) ≠
      (.dict [(.str "classRoles", .dict [(.str "x", .str "ta")]),
        (.str "class_memberships",
         .list [.dict [(.str "class_id", .str "x"), (.str "role", .str "ta")]]),
        (.str "accessible_classes", .list [.str "x"])]) ∧
    hasKeyOf (.dict [(.str "class_id", .str "x"), (.str "role", .str "ta"),
      (.str "assigned_at", .null), (.str "assigned_by", .null)]) "assigned_at" = true ∧
    hasKeyOf (.dict [(.str "class_id", .str "x"), (.str "role", .str "ta")])
      "assigned_at" = false :=
  ⟨rfl, rfl, by decide, rfl, rfl⟩

/-- C4 (amended): normalize is idempotent from the second application on:
whenever two successive applications of normalize to any record succeed
with result v, a further application of normalize maps v to itself.  A
single application is not enough only because the first pass may leave
canonical entries without the assigned_at/assigned_by metadata keys, which
the next pass adds. -/
theorem normalize_idempotent_after_two (P v : Val)
    (h : (normalize_class_memberships P).bind normalize_class_memberships = .ok v) :
    normalize_class_memberships v = .ok v := by
  cases h1 : normalize_class_memberships P with
  | error e => rw [h1] at h; exact absurd h (by simp)
  | ok u1 =>
    rw [h1, ok_bindE] at h
    by_cases hP : truthy P = true
    · cases P with
      | null => simp [truthy] at hP
      | bool b => simp [normalize_class_memberships, hP] at h1
      | int n => simp [normalize_class_memberships, hP] at h1
      | str s => simp [normalize_class_memberships, hP] at h1
      | list l => simp [normalize_class_memberships, hP] at h1
      | dict u =>
        have hu : u ≠ [] := by
          intro he
          subst he
          simp [truthy] at hP
        cases hc : buildCanonical u with
        | error e2 => simp [normalize_class_memberships, hP, hc] at h1
        | ok can =>
        cases hl : buildLegacy can with
        | error e2 => simp [normalize_class_memberships, hP, hc, hl] at h1
        | ok la =>
        have hsh : Shaped can := buildCanonical_shape u can hc
        have hla : pairsFoldE (entryPairs can) ([], []) = .ok la := by
          rw [← buildLegacyAux_shaped can hsh ([], [])]
          exact hl
        have hW := normalize_dict_unfold u can la hu hc hl
        rw [hW] at h1
        have hu1 : u1 = .dict (setTriple u (.list can) (.dict la.1) (.list la.2)) :=
          ((Except.ok.injEq _ _).mp h1).symm
        subst hu1
        have h2run := normalize_of_setTriple
          (setTriple u (.list can) (.dict la.1) (.list la.2)) can la
          (getD_setTriple_cm u _ _ _ _) (getD_setTriple_cr u _ _ _ _)
          (getD_setTriple_ac u _ _ _ _) (setTriple_ne_nil u _ _ _) hsh hla
        rw [h2run] at h
        have hv : v = .dict (setTriple (setTriple u (.list can) (.dict la.1) (.list la.2))
            (.list (can.map entry4of)) (.dict la.1) (.list la.2)) :=
          ((Except.ok.injEq _ _).mp h).symm
        subst hv
        have hall4 : ∀ e ∈ can.map entry4of, Entry4 e := entry4_map_entry4of can
        have hsh2 : Shaped (can.map entry4of) := fun e he => Or.inr (hall4 e he)
        have hla2 : pairsFoldE (entryPairs (can.map entry4of)) ([], []) = .ok la := by
          rw [entryPairs_map_entry4of]
          exact hla
        have h3run := normalize_of_setTriple
          (setTriple (setTriple u (.list can) (.dict la.1) (.list la.2))
            (.list (can.map entry4of)) (.dict la.1) (.list la.2))
          (can.map entry4of) la
          (getD_setTriple_cm _ _ _ _ _) (getD_setTriple_cr _ _ _ _ _)
          (getD_setTriple_ac _ _ _ _ _) (setTriple_ne_nil _ _ _ _) hsh2 hla2
        rw [h3run, map_entry4of_of_entry4 _ hall4]
        rw [setTriple_eq_self _ _ _ _
          (hasKey_setTriple_cm _ _ _ _) (getD_setTriple_cm _ _ _ _ _)
          (hasKey_setTriple_cr _ _ _ _) (getD_setTriple_cr _ _ _ _ _)
          (hasKey_setTriple_ac _ _ _ _) (getD_setTriple_ac _ _ _ _ _)]
    · have hid : normalize_class_memberships P = .ok P := by
        simp [normalize_class_memberships, hP]
      rw [hid] at h1
      have hu1 : P = u1 := (Except.ok.injEq _ _).mp h1
      subst hu1
      rw [hid] at h
      have hv : P = v := (Except.ok.injEq _ _).mp h
      subst hv
      exact hid

/-- C4 witness: the amended idempotence applied to the classRoles-shaped
record of the counterexample. -/
theorem normalize_idempotent_after_two_witness :
    normalize_class_memberships
      (.dict [(.str "classRoles", .dict [(.str "x", .str "ta")]),
        (.str "class_memberships",
         .list [.dict [(.str "class_id", .str "x"), (.str "role", .str "ta"),
           (.str "assigned_at", .null), (.str "assigned_by", .null)]]),
        (.str "accessible_classes", .list [.str "x"])]) =
      .ok (.dict [(.str "classRoles", .dict [(.str "x", .str "ta")]),
        (.str "class_memberships",
         .list [.dict [(.str "class_id", .str "x"), (.str "role", .str "ta"),
           (.str "assigned_at", .null), (.str "assigned_by", .null)]]),
        (.str "accessible_classes", .list [.str "x"])]) :=
  normalize_idempotent_after_two
    (.dict [(.str "classRoles", .dict [(.str "x", .str "ta")])]) _ rfl

/-- C5 (counterexample to the claim): a membership entry whose class_id is
the empty string survives normalization (priority 1 does not filter falsy
ids), but the checker drops falsy ids when building the accessible set, so
check reports the normalized record as inconsistent. -/
theorem check_normalize_empty_classid_inconsistent :
    (normalize_class_memberships (.dict [(.str "class_memberships",
      .list [.dict [(.str "class_id", .str ""), (.str "role", .str "student")]])])).bind
      check_format_consistency =
      .ok (false, [Issue.acMissing [.str ""]]) := rfl

/-- C5 (amended): for every dict record whose normalized canonical list
carries only truthy class ids, the checker accepts the normalized record:
is_consistent is true with an empty issue list. -/
theorem check_after_normalize (u : List (Val × Val)) (v : Val)
    (hn : normalize_class_memberships (.dict u) = .ok v)
    (htru : cmIdsTruthy v = true) :
    check_format_consistency v = .ok (true, []) := by
  by_cases hP : truthy (.dict u) = true
  · have hu : u ≠ [] := by
      intro he
      subst he
      simp [truthy] at hP
    cases hc : buildCanonical u with
    | error e2 => simp [normalize_class_memberships, hP, hc] at hn
    | ok can =>
    cases hl : buildLegacy can with
    | error e2 => simp [normalize_class_memberships, hP, hc, hl] at hn
    | ok la =>
    have hsh : Shaped can := buildCanonical_shape u can hc
    have hla : pairsFoldE (entryPairs can) ([], []) = .ok la := by
      rw [← buildLegacyAux_shaped can hsh ([], [])]
      exact hl
    have hW := normalize_dict_unfold u can la hu hc hl
    rw [hW] at hn
    have hv : v = .dict (setTriple u (.list can) (.dict la.1) (.list la.2)) :=
      ((Except.ok.injEq _ _).mp hn).symm
    subst hv
    have hashp : ∀ p ∈ entryPairs can, hashable p.1 = true :=
      pairsFoldE_ok_hashable _ _ _ hla
    have hashids : ∀ e ∈ can, hashable (entryId e) = true := by
      intro e he
      exact hashp _ (List.mem_map.mpr ⟨e, he, rfl⟩)
    have hashids2 : ∀ x ∈ entryIds can, hashable x = true := by
      intro x hx
      obtain ⟨e, he, rfl⟩ := List.mem_map.mp hx
      exact hashids e he
    have hla2 : la = (assocFold [] (entryPairs can), entryIds can) := by
      rw [pairsFoldE_hashable _ hashp [] []] at hla
      have h0 := (Except.ok.injEq _ _).mp hla
      rw [← h0]
      simp [map_fst_entryPairs]
    subst hla2
    have htru2 : ∀ e ∈ can, truthy (entryId e) = true := by
      have h0 : fieldOf (.dict (setTriple u (.list can)
          (.dict (assocFold [] (entryPairs can))) (.list (entryIds can))))
          "class_memberships" = .list can := getD_setTriple_cm u _ _ _ _
      rw [cmIdsTruthy, h0] at htru
      simpa [List.all_eq_true] using htru
    have htru3 : ∀ x ∈ entryIds can, truthy x = true := by
      intro x hx
      obtain ⟨e, he, rfl⟩ := List.mem_map.mp hx
      exact htru2 e he
    have e1 : getD (setTriple u (.list can)
        (.dict (assocFold [] (entryPairs can))) (.list (entryIds can)))
        "class_memberships" (.list []) = .list can := getD_setTriple_cm u _ _ _ _
    have e2 : getD (setTriple u (.list can)
        (.dict (assocFold [] (entryPairs can))) (.list (entryIds can)))
        "classRoles" (.dict []) = .dict (assocFold [] (entryPairs can)) :=
      getD_setTriple_cr u _ _ _ _
    have e3 : getD (setTriple u (.list can)
        (.dict (assocFold [] (entryPairs can))) (.list (entryIds can)))
        "accessible_classes" (.list []) = .list (entryIds can) :=
      getD_setTriple_ac u _ _ _ _
    have hscan : cmScanAux can ([], []) =
        .ok (setFold [] (entryIds can), assocFold [] (entryPairs can)) :=
      cmScanAux_shaped can hsh hashids [] []
    have hfil : (entryIds can).filter (fun c => truthy c) = entryIds can :=
      List.filter_eq_self.mpr htru3
    have hsetE : setOfEAux (entryIds can) [] = .ok (setFold [] (entryIds can)) :=
      setOfEAux_hashable _ _ hashids2
    have hkeys : (assocFold [] (entryPairs can)).map Prod.fst =
        setFold [] (entryIds can) := by
      rw [map_fst_assocFold, map_fst_entryPairs]
      rfl
    have hrolesset : ∀ x, x ∈ setOf (setFold [] (entryIds can)) ↔
        x ∈ setFold [] (entryIds can) := fun x => mem_setOf _ x
    have hu1 : setUnion (setFold [] (entryIds can)) (setOf (setFold [] (entryIds can))) =
        setFold [] (entryIds can) :=
      setUnion_of_subset _ _ (fun x hx => (hrolesset x).mp hx)
    have hu2 : setUnion (setFold [] (entryIds can)) (setFold [] (entryIds can)) =
        setFold [] (entryIds can) :=
      setUnion_of_subset _ _ (fun x hx => hx)
    have hnodup : ((assocFold [] (entryPairs can)).map Prod.fst).Nodup :=
      nodup_keys_assocFold _ [] (by simp)
    have hmis : roleMismatches (assocFold [] (entryPairs can))
        (assocFold [] (entryPairs can)) = [] := by
      apply roleMismatches_agree
      intro p hp _
      obtain ⟨k, w⟩ := p
      exact dictGetD_of_mem_nodup _ k w .null hnodup hp
    simp [check_format_consistency, cmScan, setOfE, e1, e2, e3, hscan, hfil, hsetE,
      hkeys, hu1, hu2, hmis, shapeIssues_self, shapeIssues_of_equiv _ _ _ _ hrolesset]
  · have hid : normalize_class_memberships (.dict u) = .ok (.dict u) := by
      simp [normalize_class_memberships, hP]
    rw [hid] at hn
    have hv : Val.dict u = v := (Except.ok.injEq _ _).mp hn
    subst hv
    have hu0 : u = [] := by
      cases u with
      | nil => rfl
      | cons a l => simp [truthy] at hP
    subst hu0
    rfl

/-- C5 witness: the legacy record of example scenario 2 (accessible_classes
only, global role instructor) normalizes to a record the checker accepts. -/
theorem check_after_normalize_witness :
    check_format_consistency
      (.dict [(.str "roles", .list []),
        (.str "accessible_classes", .list [.str "fhir22"]),
        (.str "role", .str "instructor"),
        (.str "class_memberships",
         .list [.dict [(.str "class_id", .str "fhir22"), (.str "role", .str "instructor")]]),
        (.str "classRoles", .dict [(.str "fhir22", .str "instructor")])]) =
      .ok (true, []) :=
  check_after_normalize
    [(.str "roles", .list []),
     (.str "accessible_classes", .list [.str "fhir22"]),
     (.str "role", .str "instructor")] _ rfl (by decide)

/-- C7: the enrollment backfill never touches a (user, course) pair whose
first membership entry for the course already records instructor or ta
(in any letter case): analyze reports no enrollment needed, so no write is
queued or applied for the pair, whatever the submission count. -/
theorem backfill_non_demotion (store : Store) (student course : String) (count : Nat)
    (u : List (Val × Val)) (xs : List Val)
    (hstore : store (.str student) = .dict u)
    (hcm : getD u "class_memberships" (.list []) = .list xs)
    (hmatch : FirstMatchStaff course xs) :
    migrate_pair store student course count = .ok Option.none := by
  obtain ⟨r, _hr, hloop⟩ := analyzeLoop_staff course xs hmatch
  have hne : u ≠ [] := by
    intro he
    subst he
    have : (Val.list [] : Val) = .list xs := hcm
    have hxs : xs = [] := by
      cases this
      rfl
    rw [hxs] at hmatch
    cases hmatch
  have htr : truthy (.dict u) = true := by
    cases u with
    | nil => exact absurd rfl hne
    | cons a l => simp [truthy]
  simp [migrate_pair, hstore, htr, analyze_user_enrollment, hcm, pyIterElems,
    Except.bind, hloop]

/-- C7 witness: a stored instructor for cda is left alone by the backfill
even with 164 submissions. -/
theorem backfill_non_demotion_witness :
    migrate_pair
      (fun k => if k = .str "alice" then
        .dict [(.str "class_memberships",
          .list [.dict [(.str "class_id", .str "cda"), (.str "role", .str "Instructor")]])]
       else .null)
      "alice" "cda" 164 = .ok Option.none :=
  backfill_non_demotion
    (fun k => if k = .str "alice" then
      .dict [(.str "class_memberships",
        .list [.dict [(.str "class_id", .str "cda"), (.str "role", .str "Instructor")]])]
     else .null)
    "alice" "cda" 164
    [(.str "class_memberships",
      .list [.dict [(.str "class_id", .str "cda"), (.str "role", .str "Instructor")]])]
    [.dict [(.str "class_id", .str "cda"), (.str "role", .str "Instructor")]]
    (by decide) (by decide)
    (FirstMatchStaff.here [(.str "class_id", .str "cda"), (.str "role", .str "Instructor")]
      [] "Instructor" (by decide) (by decide) (by decide))

/-- C8 (counterexample to the claim): roles that differ only in letter case
(TA in class_memberships, ta in classRoles) are reported as a role
mismatch with is_consistent false, because the checker compares the raw
values with no lower-casing. -/
theorem check_case_only_mismatch_reported :
    check_format_consistency (.dict
      [(.str "class_memberships",
        .list [.dict [(.str "class_id", .str "x"), (.str "role", .str "TA")]]),
       (.str "classRoles", .dict [(.str "x", .str "ta")]),
       (.str "accessible_classes", .list [.str "x"])]) =
      .ok (false, [Issue.roleMismatch (.str "x") (.str "TA") (.str "ta")]) := rfl

/-- C8 (amended): for a record holding one membership for class x with role
r1, classRoles mapping x to r2, and accessible_classes listing x, the
checker reports a role mismatch for x exactly when the two recorded strings
differ literally (case-sensitively, with no lower-casing), and then
is_consistent is false; when they are literally equal the record is
consistent. -/
theorem role_mismatch_is_literal (x r1 r2 : String) (hx : x ≠ "") :
    check_format_consistency (.dict
      [(.str "class_memberships",
        .list [.dict [(.str "class_id", .str x), (.str "role", .str r1)]]),
       (.str "classRoles", .dict [(.str x, .str r2)]),
       (.str "accessible_classes", .list [.str x])]) =
      .ok (if r1 = r2 then (true, [])
           else (false, [Issue.roleMismatch (.str x) (.str r1) (.str r2)])) := by
  have htr : truthy (.str x) = true := by simp [truthy, hx]
  have h1 : cmScanAux [.dict [(.str "class_id", .str x), (.str "role", .str r1)]] ([], []) =
      .ok ([.str x], [(.str x, .str r1)]) := by
    simp [cmScanAux, hasKeyV, dictGetD, setAddE, setAdd, dictSetE, dictSet, hashable]
  have h2 : setOfEAux [Val.str x] [] = .ok [.str x] := by
    simp [setOfEAux, setAddE, setAdd, hashable]
  by_cases hr : r1 = r2
  · subst hr
    simp [check_format_consistency, cmScan, setOfE, getD, dictGetD, h1, h2, htr,
      setUnion, setAdd, setOf, pySetEq, pySetDiff, shapeIssues, roleMismatches, hasKeyV]
  · simp [check_format_consistency, cmScan, setOfE, getD, dictGetD, h1, h2, htr,
      setUnion, setAdd, setOf, pySetEq, pySetDiff, shapeIssues, roleMismatches, hasKeyV, hr]

/-- C8 witness: genuinely different roles (ta vs instructor) are reported. -/
theorem role_mismatch_is_literal_witness :
    check_format_consistency (.dict
      [(.str "class_memberships",
        .list [.dict [(.str "class_id", .str "x"), (.str "role", .str "ta")]]),
       (.str "classRoles", .dict [(.str "x", .str "instructor")]),
       (.str "accessible_classes", .list [.str "x"])]) =
      .ok (false, [Issue.roleMismatch (.str "x") (.str "ta") (.str "instructor")]) := by
  have h := role_mismatch_is_literal "x" "ta" "instructor" (by decide)
  simpa using h

/-- C6 (counterexample to the claim): a self-targeting role update from an
actor whose roles do not grant manage_members is rejected by the earlier
permission gate with the generic denial, not with the self-modification
denial — the route checks permissions before the self test. -/
theorem self_update_without_permission_generic_denial :
    (api_update_class_member (fun _ => .null)
      (.dict [(.str "user_id", .str "stu1"), (.str "roles", .list [.str "student"])])
      "cda" "stu1" (some (.dict [(.str "role", .str "ta")])) .null).1 =
      .forbidden "Insufficient permissions to manage members for this class" ∧
    (api_update_class_member (fun _ => .null)
      (.dict [(.str "user_id", .str "stu1"), (.str "roles", .list [.str "student"])])
      "cda" "stu1" (some (.dict [(.str "role", .str "ta")])) .null).1 ≠
      RouteResult.selfDenied ∧
    (api_update_class_member (fun _ => .null)
      (.dict [(.str "user_id", .str "stu1"), (.str "roles", .list [.str "student"])])
      "cda" "stu1" (some (.dict [(.str "role", .str "ta")])) .null).2 (.str "stu1") =
      .null :=
  ⟨rfl, by decide, rfl⟩

/-- C6 (amended): a well-formed role-update request whose actor passes the
manage_members permission gate (admins included, via the admin
short-circuit) and whose derived actor identity equals the target is
rejected with the explicit self-modification denial, before
update_class_role runs, leaving the store untouched; an actor without that
permission is instead rejected earlier with the generic permission error,
and in every rejection no role change is applied. -/
theorem self_role_update_rejected (store : Store) (ju : List (Val × Val))
    (class_id target : String) (d : List (Val × Val)) (nrs : String) (now : Val)
    (hbody : getD d "role" .null = .str nrs)
    (hnr : nrs ≠ "")
    (hvalid : validate_role nrs = true)
    (hperm : user_has_class_permission store (.dict ju) class_id "manage_members" = .ok true)
    (hself : Val.str target =
      (if truthy (getD ju "user_id" .null) = true then getD ju "user_id" .null
       else getD ju "email" .null)) :
    api_update_class_member store (.dict ju) class_id target (some (.dict d)) now =
      (.selfDenied, store) := by
  have hd : truthy (.dict d) = true := by
    cases d with
    | nil =>
      have h0 : getD ([] : List (Val × Val)) "role" .null = .null := rfl
      rw [h0] at hbody
      exact absurd hbody (by simp)
    | cons a l => simp [truthy]
  have htr : truthy (.str nrs) = true := by simp [truthy, hnr]
  simp only [api_update_class_member, hd, Bool.not_true, Bool.false_eq_true, if_false,
    hbody, htr, hvalid, hperm]
  rw [if_pos hself]
  simp

/-- C6 witness: an admin targeting their own membership is rejected with the
self-modification denial even though the admin short-circuit grants them
manage_members everywhere. -/
theorem self_role_update_rejected_witness :
    api_update_class_member (fun _ => .null)
      (.dict [(.str "user_id", .str "adm1"), (.str "roles", .list [.str "admin"])])
      "cda" "adm1" (some (.dict [(.str "role", .str "ta")])) .null =
      (.selfDenied, fun _ => .null) :=
  self_role_update_rejected (fun _ => .null)
    [(.str "user_id", .str "adm1"), (.str "roles", .list [.str "admin"])]
    "cda" "adm1" [(.str "role", .str "ta")] "ta" .null
    rfl (by decide) (by decide) rfl (by decide)

theorem isOk_ok {α : Type} (a : α) : (Except.ok a : Except String α).isOk = true := rfl

theorem isOk_ite {α : Type} (c : Prop) [Decidable c] (a b : Except String α) :
    (if c then a else b).isOk = if c then a.isOk else b.isOk := by
  by_cases h : c <;> simp [h]

theorem bind_ite {α β : Type} (c : Prop) [Decidable c] (a b : Except String α)
    (f : α → Except String β) :
    (if c then a else b).bind f = if c then a.bind f else b.bind f := by
  by_cases h : c <;> simp [h]

theorem roleFieldOk_str (v : Val) (h : roleFieldOk v = true) : ∃ s, v = .str s := by
  cases v with
  | str s => exact ⟨s, rfl⟩
  | null => simp [roleFieldOk] at h
  | bool b => simp [roleFieldOk] at h
  | int n => simp [roleFieldOk] at h
  | list l => simp [roleFieldOk] at h
  | dict kvs => simp [roleFieldOk] at h

theorem lowerTruthy_all_str (xs : List Val) (h : ∀ x ∈ xs, ∃ s, x = .str s) :
    ∃ ls, normalizedRoles.lowerTruthy xs = .ok ls := by
  induction xs with
  | nil => exact ⟨[], rfl⟩
  | cons x rest ih =>
    obtain ⟨s, rfl⟩ := h x (by simp)
    obtain ⟨ls, hls⟩ := ih (fun y hy => h y (by simp [hy]))
    by_cases ht : truthy (.str s) = true
    · exact ⟨strLower s :: ls, by simp [normalizedRoles.lowerTruthy, ht, pyLower, hls]⟩
    · exact ⟨ls, by simp [normalizedRoles.lowerTruthy, ht, hls]⟩

theorem normalizedRoles_ok (v : Val) (h : rolesShapeOk v = true) :
    ∃ ls, normalizedRoles v = .ok ls := by
  cases v with
  | str s =>
    obtain ⟨ls, hls⟩ := lowerTruthy_all_str [.str s] (by
      intro x hx
      rw [List.mem_singleton] at hx
      exact ⟨s, hx⟩)
    exact ⟨ls, by simp [normalizedRoles, pyIterElems, hls]⟩
  | list xs =>
    have hxs : ∀ x ∈ xs, ∃ s, x = .str s := by
      intro x hx
      have hp := List.all_eq_true.mp (by simpa [rolesShapeOk] using h) x hx
      cases x with
      | str s => exact ⟨s, rfl⟩
      | null => simp at hp
      | bool b => simp at hp
      | int n => simp at hp
      | list l => simp at hp
      | dict kvs => simp at hp
    obtain ⟨ls, hls⟩ := lowerTruthy_all_str xs hxs
    exact ⟨ls, by simp [normalizedRoles, pyIterElems, hls]⟩
  | null => simp [rolesShapeOk] at h
  | bool b => simp [rolesShapeOk] at h
  | int n => simp [rolesShapeOk] at h
  | dict kvs => simp [rolesShapeOk] at h

theorem dictGetD_mem_or_default (kvs : List (Val × Val)) (k d : Val) :
    dictGetD kvs k d = d ∨ ∃ kv ∈ kvs, dictGetD kvs k d = kv.2 := by
  induction kvs with
  | nil => left; rfl
  | cons kv rest ih =>
    obtain ⟨k1, v1⟩ := kv
    by_cases h : k1 = k
    · right
      exact ⟨(k1, v1), by simp, by simp [dictGetD_cons, h]⟩
    · rcases ih with he | ⟨q, hq, he⟩
      · left
        simp [dictGetD_cons, h, he]
      · right
        exact ⟨q, by simp [hq], by simp [dictGetD_cons, h, he]⟩

theorem pyContains_str_ok (c : String) (v : Val) (h : accessShapeOk v = true) :
    ∃ b, pyContains (.str c) v = .ok b := by
  cases v with
  | list xs => exact ⟨xs.contains (.str c), rfl⟩
  | dict kvs => exact ⟨hasKeyV kvs (.str c), by simp [pyContains, hashable]⟩
  | str s => exact ⟨charsContain c.data s.data, rfl⟩
  | null => simp [accessShapeOk] at h
  | bool b => simp [accessShapeOk] at h
  | int n => simp [accessShapeOk] at h

theorem buildCanonical_ok (u : List (Val × Val))
    (h : roleFieldOk (getD u "role" (.str "")) = true) :
    ∃ can, buildCanonical u = .ok can := by
  unfold buildCanonical
  cases h1 : nonEmptyList (getD u "class_memberships" (.list [])) with
  | some xs => exact ⟨canonFromList xs, by simp [h1]⟩
  | none =>
  cases h2 : nonEmptyDict (getD u "class_memberships" (.list [])) with
  | some kvs => exact ⟨canonFromDict kvs, by simp [h1, h2]⟩
  | none =>
  cases h3 : nonEmptyDict (getD u "classRoles" (.dict [])) with
  | some kvs => exact ⟨canonFromClassRoles kvs, by simp [h1, h2, h3]⟩
  | none =>
  cases h4 : nonEmptyList (getD u "accessible_classes" (.list [])) with
  | some xs =>
    obtain ⟨s, hs⟩ := roleFieldOk_str _ h
    exact ⟨canonFromAccessible xs (strLower s), by simp [h1, h2, h3, h4, hs, pyLower]⟩
  | none => exact ⟨[], by simp [h1, h2, h3, h4]⟩

/-- C10 (counterexample to the claim): wrong element types do raise: a
non-string element in roles makes has_permission raise AttributeError
(r.lower()), and an unhashable (list-valued) class_id makes normalize raise
TypeError while regenerating classRoles. -/
theorem wrong_element_types_raise :
    has_permission (.dict [(.str "roles", .list [.int 5])]) "quiz.view" Option.none =
      .error "AttributeError: lower" ∧
    normalize_class_memberships (.dict [(.str "class_memberships",
      .list [.dict [(.str "class_id", .list [])]])]) =
      .error "TypeError: unhashable" := ⟨rfl, rfl⟩

/-- C10 (amended): absent or wrong-container-shape membership
representations are tolerated and treated as empty, but wrong element types
are not: has_permission returns without raising provided roles is a string
or a list of strings, the legacy role field is a string (or absent),
classRoles is either not a dict or a dict with string values, and the
access field is a container; normalize returns without raising provided
the legacy role field is a string (or absent) and the canonical class ids
are hashable.  The membership fields themselves may have any shape. -/
theorem malformed_shapes_tolerated :
    (∀ (u : List (Val × Val)) (perm : String) (cid : Option String),
      rolesShapeOk (getD u "roles" (.list [])) = true →
      roleFieldOk (getD u "role" (.str "")) = true →
      classRolesShapeOk (getD u "classRoles" (.dict [])) = true →
      accessShapeOk (getD u "access" (.list [])) = true →
      (has_permission (.dict u) perm cid).isOk = true) ∧
    (∀ u : List (Val × Val),
      roleFieldOk (getD u "role" (.str "")) = true →
      canonicalIdsHashable u = true →
      (normalize_class_memberships (.dict u)).isOk = true) := by
  constructor
  · intro u perm cid h1 h2 h3 h4
    by_cases hP : truthy (.dict u) = true
    · obtain ⟨ls, hls⟩ := normalizedRoles_ok _ h1
      obtain ⟨s, hs⟩ := roleFieldOk_str _ h2
      have hleg : pyLower (getD u "role" (.str "")) = .ok (strLower s) := by
        rw [hs]
        rfl
      cases cid with
      | none =>
        simp [has_permission, hP, hls, hleg, isOk_ite, isOk_ok]
      | some c =>
        obtain ⟨b2, hb2⟩ := pyContains_str_ok c _ h4
        cases hcr : getD u "classRoles" (.dict []) with
        | dict kvs =>
          have hval : ∃ t, dictGetD kvs (.str c) (.str "") = Val.str t := by
            rcases dictGetD_mem_or_default kvs (.str c) (.str "") with he | ⟨kv, hkv, he⟩
            · exact ⟨"", he⟩
            · obtain ⟨kk, vv⟩ := kv
              rw [hcr] at h3
              simp only [classRolesShapeOk] at h3
              have hp := List.all_eq_true.mp h3 (kk, vv) hkv
              cases vv with
              | str t => exact ⟨t, he⟩
              | null => simp at hp
              | bool b => simp at hp
              | int n => simp at hp
              | list l => simp at hp
              | dict kvs2 => simp at hp
          obtain ⟨t, ht2⟩ := hval
          have hlow : pyLower (dictGetD kvs (.str c) (.str "")) = .ok (strLower t) := by
            rw [ht2]
            rfl
          simp [has_permission, hP, hls, hleg, hcr, hlow, hb2, isOk_ite, isOk_ok, bind_ite]
        | null =>
          simp [has_permission, hP, hls, hleg, hcr, hb2, isOk_ite, isOk_ok, bind_ite]
        | bool b0 =>
          simp [has_permission, hP, hls, hleg, hcr, hb2, isOk_ite, isOk_ok, bind_ite]
        | int n =>
          simp [has_permission, hP, hls, hleg, hcr, hb2, isOk_ite, isOk_ok, bind_ite]
        | str s0 =>
          simp [has_permission, hP, hls, hleg, hcr, hb2, isOk_ite, isOk_ok, bind_ite]
        | list l =>
          simp [has_permission, hP, hls, hleg, hcr, hb2, isOk_ite, isOk_ok, bind_ite]
    · simp [has_permission, hP, Except.isOk, Except.toBool]
  · intro u h2 hhash
    by_cases hP : truthy (.dict u) = true
    · have hu : u ≠ [] := by
        intro he
        subst he
        simp [truthy] at hP
      obtain ⟨can, hc⟩ := buildCanonical_ok u h2
      have hsh : Shaped can := buildCanonical_shape u can hc
      have hids : ∀ e ∈ can, hashable (entryId e) = true := by
        rw [canonicalIdsHashable, hc] at hhash
        exact fun e he => List.all_eq_true.mp hhash e he
      have hpairs : ∀ p ∈ entryPairs can, hashable p.1 = true := by
        intro p hp
        obtain ⟨e, he, rfl⟩ := List.mem_map.mp hp
        exact hids e he
      have hbl : buildLegacy can =
          .ok (assocFold [] (entryPairs can), [] ++ (entryPairs can).map Prod.fst) := by
        rw [buildLegacy, buildLegacyAux_shaped _ hsh, pairsFoldE_hashable _ hpairs]
      rw [normalize_dict_unfold u can _ hu hc hbl]
      rfl
    · simp [normalize_class_memberships, hP, Except.isOk, Except.toBool]

/-- C10 witness: a record whose three membership representations all have
wrong container shapes is tolerated by both functions. -/
theorem malformed_shapes_tolerated_witness :
    (has_permission (.dict [(.str "class_memberships", .int 7),
      (.str "classRoles", .str "junk"), (.str "access", .str "zz"),
      (.str "accessible_classes", .int 3)]) "quiz.view" (some "cda")).isOk = true ∧
    (normalize_class_memberships (.dict [(.str "class_memberships", .int 7),
      (.str "classRoles", .str "junk"), (.str "access", .str "zz"),
      (.str "accessible_classes", .int 3)])).isOk = true :=
  ⟨malformed_shapes_tolerated.1 _ "quiz.view" (some "cda")
      (by decide) (by decide) (by decide) (by decide),
    malformed_shapes_tolerated.2 _ (by decide) (by decide)⟩

/-- C9: a user stored with the canonical list-shaped class_memberships
containing an entry for cda is nevertheless rejected by update_class_role
as not a member of cda, because the membership test `class_id in
user[class_memberships]` compares the class id against the entry dicts of
the list.  The claim describes the documented intent (update in place);
the code cannot update any canonical-format user. -/
theorem update_class_role_rejects_canonical_member :
    update_class_role
      (fun k => if k = .str "bob" then
        .dict [(.str "id", .str "bob"),
               (.str "class_memberships",
                .list [.dict [(.str "class_id", .str "cda"), (.str "role", .str "student")]])]
       else .null)
      "bob" "cda" "ta" (.str "alice") (.str "2025-01-01T00:00:00") =
      .error "ValueError: not a member" := rfl

end IC
